import Mathlib

set_option linter.unusedVariables false

/-!
Verification of the add-mcp configuration transform-and-merge core.

This file shallowly embeds the parts of the source relevant to the frozen
claims: the generic JSON/YAML/TOML document tree (`Value`/`Doc`), the
`deepMerge` function of `src/formats/utils.ts`, the document-level effect of
the JSON codec write (`src/formats/json.ts`), the agent registry and
transforms (`src/agents.ts`), the installer (`src/installer.ts` and its
routing revision), the source classifier (`src/source-parser.ts`), and a
text-level model of the JSONC structural-patch write.

Modelling conventions, fixed once here:
- JavaScript objects are ordered association lists `List (String × Value)`;
  property enumeration order is list order, `obj[k] = v` updates the first
  occurrence in place or appends.  The JS `in` operator tests own properties
  (object keys; array index strings and `"length"`) and also consults the
  prototype chain (`"toString" in obj` and `"push" in arr` are true).  The
  string-keyed property tables of `Object.prototype` and of the
  `Array.prototype` chain are intrinsics of the engine, not code of this
  repository, and are abstracted as an ambient environment (`JsProtoEnv`);
  own properties shadow the prototype, so the own-property functions
  (`jsIn`, `jsIndex`, `walkPath`) agree with the JS `in`/read pair wherever
  the key is an own property, and the installed-check claim uses the full
  test (`jsInR`, `walkPathR`).
- File paths are plain strings; the platform base-directory resolution of
  `agents.ts` is abstracted into fixed symbolic path strings, on whose exact
  spelling no claim depends, and `join cwd p` is modelled as string
  concatenation with a separator.
- The filesystem is a map from path to file state.  A file state carries
  the strict parse result (`none` when the content is malformed for a
  throwing parser such as js-yaml or @iarna/toml) together with the lenient
  best-effort jsonc-parser result, which is total by that library's
  documented contract ("on invalid input, the parser tries to be as fault
  tolerant as possible, but still return a result").
-/

/-! ## The generic document tree and JS object operations -/

/-- Generic JSON/YAML/TOML value tree (`ConfigFile` values in the source). -/
inductive Value where
  | null : Value
  | bool : Bool → Value
  | num : Int → Value
  | str : String → Value
  | arr : List Value → Value
  | obj : List (String × Value) → Value

/-- A document: the top-level object of a config file (`ConfigFile`). -/
abbrev Doc := List (String × Value)

/-- First-occurrence lookup, the JS `obj[key]` read on plain objects. -/
def objFind : Doc → String → Option Value
  | [], _ => none
  | (k', v') :: rest, k => if k' = k then some v' else objFind rest k

/-- JS `obj[key] = v`: replace the first occurrence in place, else append. -/
def objSet : Doc → String → Value → Doc
  | [], k, v => [(k, v)]
  | (k', v') :: rest, k, v =>
      if k' = k then (k, v) :: rest else (k', v') :: objSet rest k v

/-- JS array spread `{...target}` when the target is an array: the own
enumerable properties are the index keys `"0"`, `"1"`, ... . -/
def spreadArr (xs : List Value) : Doc :=
  xs.enum.map (fun p => (Nat.repr p.1, p.2))

/-- Recursion target inside `deepMerge`: the source's
`(targetValue && typeof targetValue === "object" ? targetValue : {})`,
spread by `{...target}`.  Objects stay as-is, arrays spread to index keys,
everything else (including a missing key and `null`) becomes `{}`. -/
def asEnumObj : Option Value → Doc
  | some (Value.obj m) => m
  | some (Value.arr xs) => spreadArr xs
  | _ => []

mutual

/-- Shallow embedding of `deepMerge` (src/formats/utils.ts lines 3-27; the
same function is duplicated in json.ts and toml.ts).  For each source key in
order: a non-array object value is merged recursively into the current
result value coerced to an enumerable object, anything else (scalars, null,
arrays) replaces the result value. -/
def deepMerge : Doc → Doc → Doc
  | target, [] => target
  | target, (k, v) :: rest =>
      deepMerge (objSet target k (mergeOne (objFind target k) v)) rest

/-- One entry of the `deepMerge` loop: the branch on
`sourceValue && typeof sourceValue === "object" && !Array.isArray(sourceValue)`. -/
def mergeOne : Option Value → Value → Value
  | tv, Value.obj m => Value.obj (deepMerge (asEnumObj tv) m)
  | _, v => v

end

/-- Definitional equation of `deepMerge` on the empty source. -/
theorem deepMerge_nil (t : Doc) : deepMerge t [] = t := rfl

/-- Definitional equation of `deepMerge` on a source entry. -/
theorem deepMerge_cons (t : Doc) (k : String) (v : Value) (rest : Doc) :
    deepMerge t ((k, v) :: rest) =
      deepMerge (objSet t k (mergeOne (objFind t k) v)) rest := rfl

mutual

/-- Key distinctness of an object tree, at every object level reachable by
`deepMerge` recursion.  JavaScript objects always satisfy this; documents
read from a file or built by the installer do, too. -/
def nodupValue : Value → Bool
  | Value.obj m => nodupFields m
  | _ => true

/-- Key distinctness of the fields of one object, recursively. -/
def nodupFields : List (String × Value) → Bool
  | [] => true
  | (k, v) :: rest => !(objFind rest k).isSome && nodupValue v && nodupFields rest

end

/-- Distinctness of the top-level keys only (no recursion into values). -/
def topKeysNodup : Doc → Bool
  | [] => true
  | (k, _) :: rest => !(objFind rest k).isSome && topKeysNodup rest

/-! ## JS property membership and the config-key walks -/

/-- Own-property membership on a document tree value: for plain objects
membership among the keys, for arrays the in-range index strings and
`"length"`.  On anything else the source has already guarded with
`current && typeof current === "object"`, so the answer is `false`.  The
JS `key in current` test is own-property membership or a prototype-chain
property; the full test is `jsInR` (below, with the installer).  Property
reads resolve an own property before the prototype, so wherever `jsIn`
holds, `jsIn` and `jsIndex` agree with the JS `in`/read pair. -/
def jsIn : Value → String → Bool
  | Value.obj m, k => (objFind m k).isSome
  | Value.arr xs, k =>
      k == "length" || (List.range xs.length).any (fun i => Nat.repr i == k)
  | _, _ => false

/-- The JS `current[key]` read matching `jsIn`: object field, array element
by decimal index, or the array `length` property. -/
def jsIndex : Value → String → Value
  | Value.obj m, k => (objFind m k).getD Value.null
  | Value.arr xs, k =>
      if k == "length" then Value.num xs.length
      else match (List.range xs.length).find? (fun i => Nat.repr i == k) with
        | some i => xs.getD i Value.null
        | none => Value.null
  | _, _ => Value.null

/-- The own-property walk of `getNestedValue` (formats/json.ts and
formats/utils.ts): follow the dotted-key segments, returning `none` as soon
as the guard `current && typeof current === "object" && key in current`
fails on own properties.  It agrees with the JS walk wherever every segment
is an own property of its level — in this development it is applied to the
patched config-key chain, which the write itself makes own-present.  The
walk of `isServerInstalled` under the full `in` test is `walkPathR`. -/
def walkPath : Value → List String → Option Value
  | cur, [] => some cur
  | cur, k :: rest => if jsIn cur k then walkPath (jsIndex cur k) rest else none

/-- The object-only walk used in hypotheses: follows the path while every
intermediate value is a plain object.  When it succeeds it agrees with
`walkPath` (shown below), but it rules out descents into arrays. -/
def objWalk : Doc → List String → Option Doc
  | d, [] => some d
  | d, k :: rest =>
      match objFind d k with
      | some (Value.obj m) => objWalk m rest
      | _ => none

/-! ## String helpers mirroring the JavaScript string operations

All string functions below operate on `String.data` so that the kernel can
evaluate them on literals. -/

/-- Characters of a string. -/
def strChars (s : String) : List Char := s.data

/-- String from characters. -/
def charsStr (cs : List Char) : String := ⟨cs⟩

/-- Worker for `jsSplit`. -/
def jsSplitAux (sep : Char) : List Char → List Char → List String
  | [], acc => [charsStr acc.reverse]
  | c :: rest, acc =>
      if c = sep then charsStr acc.reverse :: jsSplitAux sep rest []
      else jsSplitAux sep rest (c :: acc)

/-- JS `s.split(sep)` for a single-character separator: never returns the
empty list, `"".split(".") = [""]`, `"a.b".split(".") = ["a","b"]`. -/
def jsSplit (s : String) (sep : Char) : List String :=
  jsSplitAux sep (strChars s) []

/-- JS `s.startsWith(p)`. -/
def strStartsWith (s p : String) : Bool :=
  (strChars p).isPrefixOf (strChars s)

/-- JS `s.endsWith(p)`. -/
def strEndsWith (s p : String) : Bool :=
  (strChars p).isSuffixOf (strChars s)

/-- JS `s.includes(c)` for a single character. -/
def strContainsChar (s : String) (c : Char) : Bool :=
  (strChars s).contains c

/-- JS `s.trim()`: strip leading and trailing whitespace. -/
def jsTrim (s : String) : String :=
  charsStr ((((strChars s).dropWhile Char.isWhitespace).reverse.dropWhile
    Char.isWhitespace).reverse)

/-- JS `s.toLowerCase()` (ASCII, which covers all inputs compared against
the lowercase literals of the source). -/
def lowerStr (s : String) : String :=
  charsStr ((strChars s).map Char.toLower)

/-- JS `s.lastIndexOf(c)` as an option. -/
def lastIndexOfChar (s : String) (c : Char) : Option Nat :=
  match (strChars s).reverse.indexOf? c with
  | none => none
  | some k => some ((strChars s).length - 1 - k)

/-- JS `s.indexOf(c, 1)` as an option. -/
def indexOfCharFromOne (s : String) (c : Char) : Option Nat :=
  match ((strChars s).drop 1).indexOf? c with
  | none => none
  | some k => some (k + 1)

/-- JS `s.slice(0, n)`. -/
def strTake (s : String) (n : Nat) : String := charsStr ((strChars s).take n)

/-- Drop a leading literal if present, modelling `s.replace(/^lit/, "")`. -/
def stripLeadingLit (s lit : String) : String :=
  if strStartsWith s lit then charsStr ((strChars s).drop (strChars lit).length) else s

/-- Drop a trailing literal if present, modelling `s.replace(/lit$/, "")`. -/
def stripTrailingLit (s lit : String) : String :=
  if strEndsWith s lit then
    charsStr ((strChars s).take ((strChars s).length - (strChars lit).length))
  else s

/-! ## The source classifier (src/source-parser.ts, first revision) -/

/-- Source categories of `ParsedSource.type`. -/
inductive SourceType where
  | remote : SourceType
  | command : SourceType
  | package : SourceType
deriving DecidableEq

/-- The classified source record (`ParsedSource`). -/
structure ParsedSourceM where
  stype : SourceType
  value : String
  inferredName : String

/-- `isUrl` (source-parser.ts lines 3-5). -/
def isUrlM (input : String) : Bool :=
  strStartsWith input "http://" || strStartsWith input "https://"

/-- `isCommand` (source-parser.ts lines 7-19). -/
def isCommandM (input : String) : Bool :=
  strContainsChar input ' ' ||
    (strStartsWith input "npx " || strStartsWith input "node " ||
      strStartsWith input "python ")

/-- Character class of the `i`-flagged regex head `[a-z0-9]`. -/
def pkgHeadChar (c : Char) : Bool :=
  (('a' ≤ c && c ≤ 'z') || ('A' ≤ c && c ≤ 'Z') || ('0' ≤ c && c ≤ '9'))

/-- Character class `[\w.-]`. -/
def pkgBodyChar (c : Char) : Bool :=
  pkgHeadChar c || c = '_' || c = '.' || c = '-'

/-- Tail matcher for `^[a-z0-9][\w.-]*(@[\w.-]+)?$` after the head: a run of
`[\w.-]`, then optionally one `@` followed by a nonempty `[\w.-]` run
(`@` is not in `[\w.-]`, so the match is unambiguous). -/
def pkgTailMatch : List Char → Bool
  | [] => true
  | '@' :: rest => !rest.isEmpty && rest.all pkgBodyChar
  | c :: rest => pkgBodyChar c && pkgTailMatch rest

/-- `isPackageName` (source-parser.ts lines 21-31): scoped `@scope/...`, or
the simple-package regex. -/
def isPackageNameM (input : String) : Bool :=
  (strStartsWith input "@" && strContainsChar input '/') ||
    (match strChars input with
     | [] => false
     | c :: rest => pkgHeadChar c && pkgTailMatch rest)

/-- The fixed TLD set of source-parser.ts lines 33-46. -/
def commonTlds : List String :=
  ["com", "org", "net", "io", "dev", "ai", "tech", "co", "app", "cloud", "sh", "run"]

/-- The filter of `extractBrandFromHostname`: drop common TLDs and the
literal labels `mcp`/`api`/`www` (after lowercasing). -/
def meaningfulPart (part : String) : Bool :=
  let lower := lowerStr part
  !(commonTlds.contains lower) && !(lower = "mcp" || lower = "api" || lower = "www")

/-- `extractBrandFromHostname` (source-parser.ts lines 54-73). -/
def extractBrandFromHostname (hostname : String) : String :=
  let parts := jsSplit hostname '.'
  let meaningfulParts := parts.filter meaningfulPart
  match meaningfulParts with
  | m :: _ => m
  | [] =>
      if 2 ≤ parts.length then parts.getD (parts.length - 2) "mcp-server"
      else "mcp-server"

/-- `extractPackageName` (source-parser.ts lines 110-134): strip a version
suffix, unwrap a scope, and strip the `mcp-server-`/`server-` prefixes and
`-mcp` suffix. -/
def extractPackageName (input : String) : String :=
  let name := input
  let name :=
    match lastIndexOfChar name '@' with
    | some atIndex =>
        if 0 < atIndex && !strStartsWith name "@" then strTake name atIndex
        else
          match indexOfCharFromOne name '@' with
          | some secondAt => if strStartsWith name "@" then strTake name secondAt else name
          | none => name
    | none => name
  let name :=
    if strStartsWith name "@" && strContainsChar name '/' then
      match (jsSplit name '/').get? 1 with
      | some p => if p = "" then name else p
      | none => name
    else name
  let name := stripLeadingLit name "mcp-server-"
  let name := stripLeadingLit name "server-"
  let name := stripTrailingLit name "-mcp"
  if name = "" then "mcp-server" else name

/-- `inferName` (source-parser.ts lines 75-103).  The WHATWG `new URL`
parser is not part of this repository; it is abstracted as the ambient
function `urlHostOf` returning the parsed hostname, or `none` when the URL
constructor throws. -/
def inferNameM (urlHostOf : String → Option String) (input : String) :
    SourceType → String
  | SourceType.remote =>
      match urlHostOf input with
      | some h => extractBrandFromHostname h
      | none => "mcp-server"
  | SourceType.command =>
      let parts := jsSplit input ' '
      let startIndex :=
        if parts.get? 0 = some "npx" || parts.get? 0 = some "node" ||
            parts.get? 0 = some "python" then 1 else 0
      match (parts.drop startIndex).find? (fun p => p ≠ "" && !strStartsWith p "-") with
      | some part => extractPackageName part
      | none => "mcp-server"
  | SourceType.package => extractPackageName input

/-- `parseSource` (source-parser.ts lines 136-169).  The final
`isPackageName` branch and the fallback construct the same record, and both
are kept. -/
def parseSourceM (urlHostOf : String → Option String) (input : String) :
    ParsedSourceM :=
  let trimmed := jsTrim input
  if isUrlM trimmed then
    ⟨SourceType.remote, trimmed, inferNameM urlHostOf trimmed SourceType.remote⟩
  else if isCommandM trimmed then
    ⟨SourceType.command, trimmed, inferNameM urlHostOf trimmed SourceType.command⟩
  else if isPackageNameM trimmed then
    ⟨SourceType.package, trimmed, inferNameM urlHostOf trimmed SourceType.package⟩
  else
    ⟨SourceType.package, trimmed, inferNameM urlHostOf trimmed SourceType.package⟩

/-! ## Canonical server config and the per-agent transforms (src/agents.ts) -/

/-- The canonical `McpServerConfig` record (src/types.ts): optional fields
for the remote variant (`type`, `url`, `headers`) and the local variant
(`command`, `args`, `env`). -/
structure McpServerConfig where
  type : Option String := none
  url : Option String := none
  headers : Option (List (String × String)) := none
  command : Option String := none
  args : Option (List String) := none
  env : Option (List (String × String)) := none

/-- JS truthiness of an optional string field (`undefined` and `""` are
falsy). -/
def jsTruthyStr : Option String → Bool
  | none => false
  | some s => s ≠ ""

/-- A string map rendered as an object value. -/
def strMapValue (m : List (String × String)) : Value :=
  Value.obj (m.map (fun p => (p.1, Value.str p.2)))

/-- A string list rendered as an array value. -/
def strListValue (xs : List String) : Value :=
  Value.arr (xs.map Value.str)

/-- The canonical record serialized as it is constructed by
`buildServerConfig`: present fields in construction order (`type`, `url`,
`headers` for remote; `command`, `args`, `env` for local). -/
def mcpServerConfigValue (c : McpServerConfig) : Value :=
  Value.obj
    ((match c.type with | some t => [("type", Value.str t)] | none => []) ++
     (match c.url with | some u => [("url", Value.str u)] | none => []) ++
     (match c.headers with | some h => [("headers", strMapValue h)] | none => []) ++
     (match c.command with | some cmd => [("command", Value.str cmd)] | none => []) ++
     (match c.args with | some a => [("args", strListValue a)] | none => []) ++
     (match c.env with | some e => [("env", strMapValue e)] | none => []))

/-- `transformGooseConfig` (src/agents.ts lines 34-58).  The remote branch
is taken when `config.url` is truthy; note that it emits no `headers`
field. -/
def transformGooseConfig (serverName : String) (config : McpServerConfig) : Value :=
  if jsTruthyStr config.url then
    Value.obj
      [("name", Value.str serverName),
       ("type", Value.str (if config.type = some "sse" then "sse" else "streamable_http")),
       ("url", Value.str (config.url.getD "")),
       ("enabled", Value.bool true),
       ("timeout", Value.num 300)]
  else
    Value.obj
      ([("name", Value.str serverName)] ++
       (match config.command with
        | some cmd => [("cmd", Value.str cmd)]
        | none => []) ++
       [("args", strListValue (config.args.getD [])),
        ("enabled", Value.bool true),
        ("envs", strMapValue (config.env.getD [])),
        ("type", Value.str "stdio"),
        ("timeout", Value.num 300)])

/-- `transformZedConfig` (src/agents.ts lines 60-79). -/
def transformZedConfig (serverName : String) (config : McpServerConfig) : Value :=
  if jsTruthyStr config.url then
    Value.obj
      [("source", Value.str "custom"),
       ("type", Value.str (if jsTruthyStr config.type then config.type.getD "" else "http")),
       ("url", Value.str (config.url.getD "")),
       ("headers", strMapValue (config.headers.getD []))]
  else
    Value.obj
      ([("source", Value.str "custom")] ++
       (match config.command with
        | some cmd => [("command", Value.str cmd)]
        | none => []) ++
       [("args", strListValue (config.args.getD [])),
        ("env", strMapValue (config.env.getD []))])

/-- `transformOpenCodeConfig` (src/agents.ts lines 81-101).  A `headers`
key whose value is `undefined` is dropped by `JSON.stringify`, so the
remote branch includes `headers` only when present. -/
def transformOpenCodeConfig (serverName : String) (config : McpServerConfig) : Value :=
  if jsTruthyStr config.url then
    Value.obj
      ([("type", Value.str "remote"),
        ("url", Value.str (config.url.getD "")),
        ("enabled", Value.bool true)] ++
       (match config.headers with
        | some h => [("headers", strMapValue h)]
        | none => []))
  else
    Value.obj
      ([("type", Value.str "local")] ++
       (match config.command with
        | some cmd => [("command", Value.str cmd)]
        | none => []) ++
       [("args", strListValue (config.args.getD [])),
        ("enabled", Value.bool true),
        ("environment", strMapValue (config.env.getD []))])

/-- `transformCodexConfig` (src/agents.ts lines 103-120).  Keys with
`undefined` values (`headers`, `env` when absent) are dropped by the TOML
serializer. -/
def transformCodexConfig (serverName : String) (config : McpServerConfig) : Value :=
  if jsTruthyStr config.url then
    Value.obj
      ([("type", Value.str (if jsTruthyStr config.type then config.type.getD "" else "http")),
        ("url", Value.str (config.url.getD ""))] ++
       (match config.headers with
        | some h => [("headers", strMapValue h)]
        | none => []))
  else
    Value.obj
      ((match config.command with
        | some cmd => [("command", Value.str cmd)]
        | none => []) ++
       [("args", strListValue (config.args.getD []))] ++
       (match config.env with
        | some e => [("env", strMapValue e)]
        | none => []))

/-! ## The agent registry (src/agents.ts lines 122-270) -/

/-- Config file formats. -/
inductive ConfigFormat where
  | json : ConfigFormat
  | yaml : ConfigFormat
  | toml : ConfigFormat
deriving DecidableEq

/-- The nine registered agents. -/
inductive AgentType where
  | claudeCode | claudeDesktop | codex | cursor | geminiCli
  | goose | opencode | vscode | zed
deriving DecidableEq

/-- Global config path of each agent.  Platform resolution (home directory,
application-support directory, environment overrides) is abstracted into a
fixed symbolic path; no claim depends on the spelling, only on the paths
being per-agent. -/
def agentConfigPath : AgentType → String
  | AgentType.claudeCode => "HOME/.claude.json"
  | AgentType.claudeDesktop => "APPSUPPORT/Claude/claude_desktop_config.json"
  | AgentType.codex => "CODEXHOME/config.toml"
  | AgentType.cursor => "HOME/.cursor/mcp.json"
  | AgentType.geminiCli => "HOME/.gemini/settings.json"
  | AgentType.goose => "HOME/.config/goose/config.yaml"
  | AgentType.opencode => "HOME/.config/opencode/opencode.json"
  | AgentType.vscode => "VSCODEUSER/mcp.json"
  | AgentType.zed => "APPSUPPORT/Zed/settings.json"

/-- `localConfigPath` of each agent (claude-desktop has none). -/
def agentLocalConfigPath : AgentType → Option String
  | AgentType.claudeCode => some ".mcp.json"
  | AgentType.claudeDesktop => none
  | AgentType.codex => some ".codex/config.toml"
  | AgentType.cursor => some ".cursor/mcp.json"
  | AgentType.geminiCli => some ".gemini/settings.json"
  | AgentType.goose => some ".goose/config.yaml"
  | AgentType.opencode => some ".opencode.json"
  | AgentType.vscode => some ".vscode/mcp.json"
  | AgentType.zed => some ".zed/settings.json"

/-- `configKey` of each agent. -/
def agentConfigKey : AgentType → String
  | AgentType.claudeCode => "mcpServers"
  | AgentType.claudeDesktop => "mcpServers"
  | AgentType.codex => "mcp_servers"
  | AgentType.cursor => "mcpServers"
  | AgentType.geminiCli => "mcpServers"
  | AgentType.goose => "extensions"
  | AgentType.opencode => "mcp"
  | AgentType.vscode => "servers"
  | AgentType.zed => "context_servers"

/-- `localConfigKey`: no agent of this registry defines one. -/
def agentLocalConfigKey : AgentType → Option String := fun _ => none

/-- `format` of each agent. -/
def agentFormat : AgentType → ConfigFormat
  | AgentType.codex => ConfigFormat.toml
  | AgentType.goose => ConfigFormat.yaml
  | _ => ConfigFormat.json

/-- The optional `transformConfig` dispatch: the four agents with transforms
use them, every other agent stores the canonical record unchanged.  The
`{local}` context argument passed by the routing installer revision is
ignored by all four registered transforms. -/
def applyAgentTransform (a : AgentType) (serverName : String)
    (config : McpServerConfig) : Value :=
  match a with
  | AgentType.goose => transformGooseConfig serverName config
  | AgentType.zed => transformZedConfig serverName config
  | AgentType.opencode => transformOpenCodeConfig serverName config
  | AgentType.codex => transformCodexConfig serverName config
  | _ => mcpServerConfigValue config

/-! ## Nested set/get and the patch document (formats/json.ts, formats/index.ts) -/

/-- Worker for `setNestedDoc`: the walk of `setNestedValue` after the last
key has been popped.  A missing or non-object intermediate is replaced by
`{}`; the source would instead descend into an existing array (an
`Array` is a JS object), a case excluded wherever this model is used: the
installer applies `setNestedValue` to a fresh `{}`, and the jsonc patch
model below is guarded by `jsonPatchable`, which rules out non-object
intermediates because `jsonc.modify` throws on them. -/
def setNestedGo (d : Doc) : List String → String → Value → Doc
  | [], last, v => objSet d last v
  | k :: rest, last, v =>
      let sub := match objFind d k with
        | some (Value.obj m) => m
        | _ => []
      objSet d k (Value.obj (setNestedGo sub rest last v))

/-- `setNestedValue` (formats/json.ts lines 146-165) on an explicit segment
list: pop the last key (returning the document unchanged when it is falsy,
i.e. the empty string), create intermediate objects, assign at the end. -/
def setNestedDoc (d : Doc) (parts : List String) (v : Value) : Doc :=
  match parts.getLast? with
  | none => d
  | some last => if last = "" then d else setNestedGo d parts.dropLast last v

/-- `buildConfigWithKey` (formats/index.ts lines 43-53): a fresh document
holding `{ configKey: { serverName: serverConfig } }` built through
`setNestedValue` on the dotted key. -/
def buildConfigWithKey (configKey serverName : String) (serverConfig : Value) : Doc :=
  setNestedDoc [] (jsSplit configKey '.') (Value.obj [(serverName, serverConfig)])

/-- The nested singleton chain `{ k1: { k2: ... { kn: w } } }`; the shape
`buildConfigWithKey` produces (shown below). -/
def nestDoc : List String → Value → Doc
  | [], _ => []
  | [k], w => [(k, w)]
  | k :: k' :: rest, w => [(k, Value.obj (nestDoc (k' :: rest) w))]

/-- Success region of the `jsonc.modify` edit computation: `setProperty`
throws (caught by the source's fallback) as soon as an existing
intermediate node along the path is neither an object nor missing. -/
def jsonPatchable : Doc → List String → Bool
  | _, [] => false
  | _, [_] => true
  | d, k :: k' :: rest =>
      match objFind d k with
      | some (Value.obj m) => jsonPatchable m (k' :: rest)
      | none => true
      | some _ => false

/-- Document-level effect of `writeJsonConfig` (formats/json.ts lines
55-94).  With no existing file the merged tree is fully serialized.  With
an existing file the source computes `jsonc.modify(originalContent,
configKeyPath, getNestedValue(mergedConfig, configKey), ...)` and applies
the edits textually; at the parsed-document level that sets the config-key
path of the existing document to the merged subtree.  When `jsonc.modify`
throws (non-object intermediate) the source falls back to serializing the
merged tree.  For the installer's patches the merged subtree always exists
at the config key (`walkPath_deepMerge_nestDoc` below), so the model maps
the unreachable absent-subtree case to the merged tree as well. -/
def writeJsonDoc (existing : Option Doc) (patch : Doc) (parts : List String) : Doc :=
  match existing with
  | none => deepMerge [] patch
  | some d =>
      let merged := deepMerge d patch
      match walkPath (Value.obj merged) parts with
      | some newValue =>
          if jsonPatchable d parts then setNestedDoc d parts newValue else merged
      | none => merged

/-! ## The filesystem model and the codecs -/

/-- State of one path.  `file strict lenient` is a file whose content has
strict parse result `strict` (`none` when a throwing parser such as js-yaml
or @iarna/toml would raise) and best-effort jsonc parse result `lenient`
(total).  A well-formed file has `strict = some d` and `lenient = d`. -/
inductive FileState where
  | absent : FileState
  | file : Option Doc → Doc → FileState

/-- The filesystem: a map from path to file state. -/
abbrev FS := String → FileState

/-- Point update of the filesystem. -/
def updateFS (fs : FS) (path : String) (st : FileState) : FS :=
  fun q => if q = path then st else fs q

/-- A valid on-disk file produced by a write: both parses agree. -/
def validFile (d : Doc) : FileState := FileState.file (some d) d

/-- `readJsonConfig` (formats/json.ts lines 40-50): missing file gives the
empty document, otherwise the lenient `jsonc.parse` result; never throws. -/
def readJsonConfigM (path : String) (fs : FS) : Doc :=
  match fs path with
  | FileState.absent => []
  | FileState.file _ lenient => lenient

/-- `readYamlConfig` (formats/yaml.ts): missing file gives the empty
document, `yaml.load` throws on malformed content, and a null parse result
falls back to the empty document. -/
def readYamlConfigM (path : String) (fs : FS) : Except String Doc :=
  match fs path with
  | FileState.absent => Except.ok []
  | FileState.file (some d) _ => Except.ok d
  | FileState.file none _ => Except.error "YAMLException: parse error"

/-- `readTomlConfig` (formats/toml.ts lines 6-15): missing file gives the
empty document, `TOML.parse` throws on malformed content. -/
def readTomlConfigM (path : String) (fs : FS) : Except String Doc :=
  match fs path with
  | FileState.absent => Except.ok []
  | FileState.file (some d) _ => Except.ok d
  | FileState.file none _ => Except.error "TomlError: parse error"

/-- `readConfig` (formats/index.ts lines 9-20). -/
def readConfigM (path : String) (format : ConfigFormat) (fs : FS) :
    Except String Doc :=
  match format with
  | ConfigFormat.json => Except.ok (readJsonConfigM path fs)
  | ConfigFormat.yaml => readYamlConfigM path fs
  | ConfigFormat.toml => readTomlConfigM path fs

/-- `writeJsonConfig` at filesystem level: reads the existing file with the
lenient parser (so it never raises) and writes the document produced by
`writeJsonDoc`. -/
def writeJsonConfigM (path : String) (config : Doc) (configKey : String)
    (fs : FS) : FS :=
  let existing : Option Doc :=
    match fs path with
    | FileState.absent => none
    | FileState.file _ lenient => some lenient
  updateFS fs path (validFile (writeJsonDoc existing config (jsSplit configKey '.')))

/-- `writeYamlConfig` (formats/yaml.ts lines 60-80): read the existing file
(propagating a parse error), deep-merge, full re-serialize. -/
def writeYamlConfigM (path : String) (config : Doc) (fs : FS) :
    Except String FS :=
  match fs path with
  | FileState.absent => Except.ok (updateFS fs path (validFile (deepMerge [] config)))
  | FileState.file (some d) _ =>
      Except.ok (updateFS fs path (validFile (deepMerge d config)))
  | FileState.file none _ => Except.error "YAMLException: parse error"

/-- `writeTomlConfig` (formats/toml.ts lines 76-91): read the existing file
(propagating a parse error), deep-merge, full re-serialize. -/
def writeTomlConfigM (path : String) (config : Doc) (fs : FS) :
    Except String FS :=
  match fs path with
  | FileState.absent => Except.ok (updateFS fs path (validFile (deepMerge [] config)))
  | FileState.file (some d) _ =>
      Except.ok (updateFS fs path (validFile (deepMerge d config)))
  | FileState.file none _ => Except.error "TomlError: parse error"

/-- `writeConfig` (formats/index.ts lines 22-41). -/
def writeConfigM (path : String) (config : Doc) (format : ConfigFormat)
    (configKey : String) (fs : FS) : Except String FS :=
  match format with
  | ConfigFormat.json => Except.ok (writeJsonConfigM path config configKey fs)
  | ConfigFormat.yaml => writeYamlConfigM path config fs
  | ConfigFormat.toml => writeTomlConfigM path config fs

/-! ## The installer (src/installer.ts, and the routing revision) -/

/-- Per-agent scope routing values. -/
inductive Scope where
  | localScope : Scope
  | globalScope : Scope
deriving DecidableEq

/-- `InstallResult`. -/
structure InstallResultM where
  success : Bool
  path : String
  error : Option String := none
deriving DecidableEq

/-- `getConfigPath` (installer.ts lines 63-72): the local path joined to
the working directory when a local install is requested and the agent
supports it, else the global path. -/
def getConfigPathM (a : AgentType) (isLocal : Bool) (cwd : String) : String :=
  match isLocal, agentLocalConfigPath a with
  | true, some lp => cwd ++ "/" ++ lp
  | _, _ => agentConfigPath a

/-- `getConfigKey` of the routing installer revision: the local config key
when a local install is requested and the agent defines one, else the
default key. -/
def getConfigKeyM (a : AgentType) (isLocal : Bool) : String :=
  match isLocal, agentLocalConfigKey a with
  | true, some k => k
  | _, _ => agentConfigKey a

/-- The string-keyed properties of the `Object.prototype` chain and of the
`Array.prototype` chain (which also reaches `Object.prototype`).  These
tables are intrinsics of the JavaScript engine, not code of this
repository; like the WHATWG URL parser in the classifier model they are
abstracted as an ambient environment.  In every real engine
`objectProtoHas "toString"` and `arrayProtoHas "push"` hold, and no agent
config key of the registry is a prototype property. -/
structure JsProtoEnv where
  objectProtoHas : String → Bool
  arrayProtoHas : String → Bool

/-- The full JS `key in current` test on a document tree value under the
ambient prototype environment: an own property (`jsIn`) or a
prototype-chain property — `Object.prototype` for parsed plain objects,
the `Array.prototype` chain for arrays.  On scalars the source has already
guarded with `current && typeof current === "object"`, so the answer is
`false`. -/
def jsInR (env : JsProtoEnv) : Value → String → Bool
  | Value.obj m, k => (objFind m k).isSome || env.objectProtoHas k
  | Value.arr xs, k =>
      k == "length" || (List.range xs.length).any (fun i => Nat.repr i == k) ||
        env.arrayProtoHas k
  | _, _ => false

/-- Result of the `isServerInstalled` walk under the full `in` test: the
loop ended on a document tree value, the loop returned `false`, or a
prototype-chain hit made `current = current[key]` an engine intrinsic
outside the document tree (e.g. `Object.prototype.toString`), after which
the behaviour depends on the engine's intrinsic values and the model
abstains. -/
inductive WalkR where
  | found : Value → WalkR
  | failed : WalkR
  | protoEscape : WalkR

/-- The walk of `isServerInstalled` (installer.ts lines 93-102) under the
full `in` test: property resolution finds an own property before the
prototype, so an own hit descends into the tree (`jsIndex`); a key that is
neither an own nor a prototype property, or a scalar `current`, ends the
loop with `false`; a prototype hit escapes the tree. -/
def walkPathR (env : JsProtoEnv) : Value → List String → WalkR
  | cur, [] => WalkR.found cur
  | cur, k :: rest =>
      if jsIn cur k then walkPathR env (jsIndex cur k) rest
      else if jsInR env cur k then WalkR.protoEscape
      else WalkR.failed

/-- `isServerInstalled` (installer.ts lines 77-109) under the ambient
prototype environment: missing file is `false`; otherwise read the config
(a yaml/toml parse error propagates uncaught, hence the `Except`), walk
the dotted config key, and finally test `serverName in current` — the full
`jsInR` test, since the final guard is again `current && typeof current
=== "object"`.  The outer `none` marks a prototype escape during the walk,
where the remaining behaviour depends on engine intrinsic values outside
this repository and the model abstains. -/
def isServerInstalledR (env : JsProtoEnv) (serverName : String) (a : AgentType)
    (isLocal : Bool) (cwd : String) (fs : FS) : Option (Except String Bool) :=
  let configPath := getConfigPathM a isLocal cwd
  match fs configPath with
  | FileState.absent => some (Except.ok false)
  | FileState.file _ _ =>
      match readConfigM configPath (agentFormat a) fs with
      | Except.error e => some (Except.error e)
      | Except.ok config =>
          match walkPathR env (Value.obj config) (jsSplit (agentConfigKey a) '.') with
          | WalkR.found cur => some (Except.ok (jsInR env cur serverName))
          | WalkR.failed => some (Except.ok false)
          | WalkR.protoEscape => none

/-- `installServerForAgent` (routing installer revision lines 159-196):
resolve path and key, transform, build the single-entry patch, write via
the format codec; any thrown error (in this model, a yaml/toml parse
error) is caught and reported as a failed result with the filesystem
untouched. -/
def installServerForAgentM (serverName : String) (serverConfig : McpServerConfig)
    (a : AgentType) (isLocal : Bool) (cwd : String) (fs : FS) :
    InstallResultM × FS :=
  let configPath := getConfigPathM a isLocal cwd
  let transformed := applyAgentTransform a serverName serverConfig
  let configKey := getConfigKeyM a isLocal
  let config := buildConfigWithKey configKey serverName transformed
  match writeConfigM configPath config (agentFormat a) configKey fs with
  | Except.ok fs' => (⟨true, configPath, none⟩, fs')
  | Except.error e => (⟨false, configPath, some e⟩, fs)

/-- Result accumulator of `installServer`: the `Map` keyed by agent type. -/
def setResult (res : AgentType → Option InstallResultM) (a : AgentType)
    (r : InstallResultM) : AgentType → Option InstallResultM :=
  fun b => if b = a then some r else res b

/-- The loop of `installServer` (routing installer revision lines 198-223):
look up the agent's scope in the routing map (absent means not local),
install, record the result. -/
def installLoop (serverName : String) (serverConfig : McpServerConfig)
    (routing : AgentType → Option Scope) (cwd : String) :
    List AgentType → (AgentType → Option InstallResultM) → FS →
      (AgentType → Option InstallResultM) × FS
  | [], res, fs => (res, fs)
  | a :: rest, res, fs =>
      let isLocal := routing a = some Scope.localScope
      let out := installServerForAgentM serverName serverConfig a isLocal cwd fs
      installLoop serverName serverConfig routing cwd rest (setResult res a out.1) out.2

/-- `installServer` (routing installer revision lines 198-223). -/
def installServerM (serverName : String) (serverConfig : McpServerConfig)
    (agentTypes : List AgentType) (routing : AgentType → Option Scope)
    (cwd : String) (fs : FS) : (AgentType → Option InstallResultM) × FS :=
  installLoop serverName serverConfig routing cwd agentTypes (fun _ => none) fs

/-! ## Text-level model of the JSONC structural patch (for claim C5) -/

/-- Raw file text. -/
abbrev Text := List Char

/-- One text edit as returned by `jsonc.modify`: replace `length`
characters at `offset` by `content`. -/
structure JsonEdit where
  offset : Nat
  length : Nat
  content : Text
deriving DecidableEq

/-- `jsonc.applyEdits`: splice the edit into the text. -/
def applyEditText (t : Text) (e : JsonEdit) : Text :=
  t.take e.offset ++ e.content ++ t.drop (e.offset + e.length)

/-- Outcome of `writeJsonConfig` at text level: either the textually
patched original, or a full `JSON.stringify(merged, null, 2)`
re-serialization. -/
inductive JsonWriteOutcome where
  | patched : Text → JsonWriteOutcome
  | serialized : JsonWriteOutcome

/-- Strategy selection of `writeJsonConfig` (formats/json.ts lines 65-93):
the structural patch runs only when the file exists and its content is
nonempty (`if (originalContent)`); a `modifyResult` of `none` models a
throw inside the `try` block, which falls back to full re-serialization.
Modelled from the spec and the jsonc-parser contract: the edit returned by
`jsonc.modify` for the config-key path lies within the span of that
property in the original text. -/
def writeJsonStrategy (fileExists : Bool) (original : Text)
    (modifyResult : Option JsonEdit) : JsonWriteOutcome :=
  if fileExists && !original.isEmpty then
    match modifyResult with
    | some e => JsonWriteOutcome.patched (applyEditText original e)
    | none => JsonWriteOutcome.serialized
  else JsonWriteOutcome.serialized

/-- Position data of one object property as reported by `jsonc.visit`. -/
structure PropTokenPos where
  startLine : Nat
  startCharacter : Nat
  leadingWs : Text

/-- `detectIndent` (formats/json.ts lines 9-35): the first property (in
document order) with positive line and column sets the indentation; tab
size is its start column and spaces are used unless the leading whitespace
of its line contains a tab; default is two spaces. -/
structure IndentOpts where
  tabSize : Nat
  insertSpaces : Bool
deriving DecidableEq

/-- `detectIndent` over the property positions supplied by `jsonc.visit`. -/
def detectIndentM (props : List PropTokenPos) : IndentOpts :=
  match props.find? (fun p => decide (0 < p.startLine) && decide (0 < p.startCharacter)) with
  | some p => ⟨p.startCharacter, !p.leadingWs.contains '\t'⟩
  | none => ⟨2, true⟩

/-! ## Comparison definitions that follow the words of the spec -/

mutual

/-- Follows the words of the spec's deep-merge clause, for comparison with
`deepMerge`: "if both existing and incoming values are maps, merge
recursively; otherwise the incoming value replaces the existing one
entirely". -/
def specDeepMerge : Doc → Doc → Doc
  | target, [] => target
  | target, (k, v) :: rest =>
      specDeepMerge (objSet target k (specMergeOne (objFind target k) v)) rest

/-- One entry of `specDeepMerge`: recursive merge exactly when both sides
are maps. -/
def specMergeOne : Option Value → Value → Value
  | some (Value.obj tm), Value.obj m => Value.obj (specDeepMerge tm m)
  | _, v => v

end

/-- Follows the words of the spec's Goose remote transform, for comparison
with `transformGooseConfig`: remote maps to
`{name, type, url, headers, enabled: true, timeout: 300}`. -/
def gooseSpecRemote (serverName : String) (config : McpServerConfig) : Value :=
  Value.obj
    [("name", Value.str serverName),
     ("type", Value.str (if config.type = some "sse" then "sse" else "streamable_http")),
     ("url", Value.str (config.url.getD "")),
     ("headers", strMapValue (config.headers.getD [])),
     ("enabled", Value.bool true),
     ("timeout", Value.num 300)]

/-! ## Proof-helper definitions -/

/-- The subtree value that `deepMerge` produces at the end of the singleton
chain `nestDoc parts (Value.obj fields)`: descend through the existing
document with `asEnumObj` and merge `fields` at the last segment. -/
def mergeAtChain : Doc → List String → Doc → Doc
  | d, [], fields => deepMerge d fields
  | d, [k], fields => deepMerge (asEnumObj (objFind d k)) fields
  | d, k :: k' :: rest, fields =>
      mergeAtChain (asEnumObj (objFind d k)) (k' :: rest) fields

example : deepMerge [("a", Value.num 1)] [("b", Value.num 2)] =
    [("a", Value.num 1), ("b", Value.num 2)] := rfl

example : deepMerge [("a", Value.arr [Value.num 1, Value.num 2])]
    [("a", Value.obj [("b", Value.num 3)])] =
    [("a", Value.obj [("0", Value.num 1), ("1", Value.num 2), ("b", Value.num 3)])] := rfl

example : buildConfigWithKey "mcpServers" "neon" (Value.str "x") =
    [("mcpServers", Value.obj [("neon", Value.str "x")])] := rfl

example : buildConfigWithKey "a.b" "neon" (Value.str "x") =
    [("a", Value.obj [("b", Value.obj [("neon", Value.str "x")])])] := rfl

example : extractBrandFromHostname "mcp.neon.tech" = "neon" := rfl

example : extractBrandFromHostname "api.company.com" = "company" := rfl

example : extractPackageName "@modelcontextprotocol/server-postgres" = "postgres" := rfl

example : extractPackageName "mcp-server-github@1.0.0" = "github" := rfl

/-! ## Basic lemmas about the object operations -/

theorem mergeOne_obj (tv : Option Value) (m : Doc) :
    mergeOne tv (Value.obj m) = Value.obj (deepMerge (asEnumObj tv) m) := rfl

theorem mergeOne_null (tv : Option Value) : mergeOne tv Value.null = Value.null := rfl

theorem mergeOne_bool (tv : Option Value) (b : Bool) :
    mergeOne tv (Value.bool b) = Value.bool b := rfl

theorem mergeOne_num (tv : Option Value) (x : Int) :
    mergeOne tv (Value.num x) = Value.num x := rfl

theorem mergeOne_str (tv : Option Value) (x : String) :
    mergeOne tv (Value.str x) = Value.str x := rfl

theorem mergeOne_arr (tv : Option Value) (xs : List Value) :
    mergeOne tv (Value.arr xs) = Value.arr xs := rfl

theorem objFind_objSet_self (t : Doc) (k : String) (v : Value) :
    objFind (objSet t k v) k = some v := by
  induction t with
  | nil => simp [objSet, objFind]
  | cons hd rest ih =>
    obtain ⟨k', v'⟩ := hd
    by_cases h : k' = k
    · subst h; simp [objSet, objFind]
    · simp [objSet, objFind, h, ih]

theorem objFind_objSet_ne (t : Doc) (k' k : String) (v : Value) (h : k' ≠ k) :
    objFind (objSet t k' v) k = objFind t k := by
  induction t with
  | nil => simp [objSet, objFind, h]
  | cons hd rest ih =>
    obtain ⟨k'', v''⟩ := hd
    by_cases h2 : k'' = k'
    · subst h2; simp [objSet, objFind, h]
    · simp only [objSet, if_neg h2]
      by_cases h3 : k'' = k
      · simp [objFind, h3]
      · simp [objFind, h3, ih]

theorem objSet_of_find_eq (t : Doc) (k : String) (v : Value)
    (h : objFind t k = some v) : objSet t k v = t := by
  induction t with
  | nil => simp [objFind] at h
  | cons hd rest ih =>
    obtain ⟨k', v'⟩ := hd
    by_cases h2 : k' = k
    · subst h2
      have h' : v' = v := by simpa [objFind] using h
      subst h'
      simp [objSet]
    · simp only [objFind, if_neg h2] at h
      simp [objSet, h2, ih h]

theorem objSet_of_find_none (t : Doc) (k : String) (v : Value)
    (h : objFind t k = none) : objSet t k v = t ++ [(k, v)] := by
  induction t with
  | nil => simp [objSet]
  | cons hd rest ih =>
    obtain ⟨k', v'⟩ := hd
    by_cases h2 : k' = k
    · subst h2; simp [objFind] at h
    · simp only [objFind, if_neg h2] at h
      simp [objSet, h2, ih h]

theorem objFind_append_of_find_none (t u : Doc) (k : String)
    (h : objFind t k = none) : objFind (t ++ u) k = objFind u k := by
  induction t with
  | nil => simp
  | cons hd rest ih =>
    obtain ⟨k', v'⟩ := hd
    by_cases h2 : k' = k
    · subst h2; simp [objFind] at h
    · simp only [objFind, if_neg h2] at h
      simp [objFind, h2, ih h]

theorem objFind_isSome_of_mem (s : Doc) (k : String) (v : Value)
    (h : (k, v) ∈ s) : (objFind s k).isSome = true := by
  induction s with
  | nil => simp at h
  | cons hd rest ih =>
    obtain ⟨k', v'⟩ := hd
    by_cases h2 : k' = k
    · subst h2; simp [objFind]
    · rcases List.mem_cons.mp h with h3 | h3
      · cases h3; simp at h2
      · simp [objFind, h2, ih h3]

/-! ## Characterization and absorption lemmas for deepMerge -/

theorem deepMerge_find_of_none (t s : Doc) (k : String)
    (h : objFind s k = none) : objFind (deepMerge t s) k = objFind t k := by
  induction s generalizing t with
  | nil => simp [deepMerge_nil]
  | cons hd rest ih =>
    obtain ⟨k', v'⟩ := hd
    have hk : ¬ k' = k := by
      intro e; subst e; simp [objFind] at h
    have hr : objFind rest k = none := by
      simpa [objFind, hk] using h
    rw [deepMerge_cons, ih _ hr, objFind_objSet_ne _ _ _ _ hk]

/-- Pointwise description of `deepMerge`: a key absent from the source keeps
the target value; a key present in the source with a non-array object value
merges recursively into the target value coerced by `asEnumObj`; any other
source value replaces the target value. -/
theorem deepMerge_find_char (t s : Doc) (k : String)
    (hs : topKeysNodup s = true) :
    objFind (deepMerge t s) k =
      match objFind s k with
      | none => objFind t k
      | some v => some (mergeOne (objFind t k) v) := by
  induction s generalizing t with
  | nil => simp [deepMerge_nil, objFind]
  | cons hd rest ih =>
    obtain ⟨k', v'⟩ := hd
    have hs1 : (objFind rest k').isSome = false ∧ topKeysNodup rest = true := by
      simpa [topKeysNodup, Bool.and_eq_true] using hs
    by_cases h2 : k' = k
    · subst h2
      have hr : objFind rest k' = none := by
        cases hx : objFind rest k' with
        | none => rfl
        | some w => rw [hx] at hs1; simp at hs1
      rw [deepMerge_cons, deepMerge_find_of_none _ _ _ hr, objFind_objSet_self]
      simp [objFind]
    · rw [deepMerge_cons, ih _ hs1.2]
      cases hx : objFind rest k with
      | none =>
        simp only [objFind, if_neg h2, hx]
        exact objFind_objSet_ne _ _ _ _ h2
      | some w =>
        simp only [objFind, if_neg h2, hx]
        rw [objFind_objSet_ne _ _ _ _ h2]

theorem nodupFields_cons (k : String) (v : Value) (rest : Doc)
    (h : nodupFields ((k, v) :: rest) = true) :
    objFind rest k = none ∧ nodupValue v = true ∧ nodupFields rest = true := by
  have h' : (!(objFind rest k).isSome && nodupValue v && nodupFields rest) = true := h
  simp only [Bool.and_eq_true, Bool.not_eq_true'] at h'
  obtain ⟨⟨h1, h2⟩, h3⟩ := h'
  refine ⟨?_, h2, h3⟩
  cases hx : objFind rest k with
  | none => rfl
  | some w => rw [hx] at h1; simp at h1

/-- Merging a key-disjoint, key-distinct source into a target appends it. -/
theorem deepMerge_append_of_disjoint :
    ∀ (n : Nat) (s : Doc), sizeOf s ≤ n → nodupFields s = true →
      ∀ t : Doc, (∀ kv ∈ s, objFind t kv.1 = none) → deepMerge t s = t ++ s := by
  intro n
  induction n with
  | zero =>
    intro s hsz
    cases s with
    | nil => simp at hsz
    | cons a r => intro _ _ _; simp at hsz
  | succ n ih =>
    intro s hsz hnd t hdisj
    cases s with
    | nil => simp [deepMerge_nil]
    | cons hd rest =>
      obtain ⟨k, v⟩ := hd
      obtain ⟨hfind, hv, hrest⟩ := nodupFields_cons _ _ _ hnd
      have htk : objFind t k = none := hdisj (k, v) (List.mem_cons_self _ _)
      have habs : mergeOne (objFind t k) v = v := by
        cases v with
        | obj m =>
          have hm : sizeOf m ≤ n := by
            simp only [List.cons.sizeOf_spec, Prod.mk.sizeOf_spec, Value.obj.sizeOf_spec] at hsz
            omega
          have hnm : nodupFields m = true := hv
          rw [mergeOne_obj, htk]
          show Value.obj (deepMerge [] m) = Value.obj m
          rw [ih m hm hnm [] (by intro kv _; simp [objFind])]
          simp
        | null => rw [mergeOne_null]
        | bool b => rw [mergeOne_bool]
        | num x => rw [mergeOne_num]
        | str x => rw [mergeOne_str]
        | arr xs => rw [mergeOne_arr]
      rw [deepMerge_cons, habs, objSet_of_find_none _ _ _ htk]
      have hrsz : sizeOf rest ≤ n := by
        simp only [List.cons.sizeOf_spec, Prod.mk.sizeOf_spec] at hsz
        omega
      rw [ih rest hrsz hrest (t ++ [(k, v)]) ?_]
      · simp
      · intro kv hm
        have h1 : objFind t kv.1 = none := hdisj kv (List.mem_cons_of_mem _ hm)
        have h2 : ¬ k = kv.1 := by
          intro e
          have hmem : (kv.1, kv.2) ∈ rest := by simpa using hm
          have := objFind_isSome_of_mem rest kv.1 kv.2 hmem
          rw [← e, hfind] at this
          simp at this
        rw [objFind_append_of_find_none _ _ _ h1]
        simp [objFind, h2]

/-- Merging a key-distinct object into the empty target copies it. -/
theorem deepMerge_nil_left (m : Doc) (h : nodupFields m = true) :
    deepMerge [] m = m := by
  have := deepMerge_append_of_disjoint (sizeOf m) m le_rfl h []
    (by intro kv _; simp [objFind])
  simpa using this

/-- Merging the same key-distinct source twice is the same as merging it
once: the second pass rewrites every source key with the value it already
has. -/
theorem deepMerge_absorb :
    ∀ (n : Nat) (s : Doc), sizeOf s ≤ n → nodupFields s = true →
      ∀ t : Doc, deepMerge (deepMerge t s) s = deepMerge t s := by
  intro n
  induction n with
  | zero =>
    intro s hsz
    cases s with
    | nil => simp at hsz
    | cons a r => intro _ _; simp at hsz
  | succ n ih =>
    intro s hsz hnd t
    cases s with
    | nil => simp [deepMerge_nil]
    | cons hd rest =>
      obtain ⟨k, v⟩ := hd
      obtain ⟨hfind, hv, hrest⟩ := nodupFields_cons _ _ _ hnd
      have hrsz : sizeOf rest ≤ n := by
        simp only [List.cons.sizeOf_spec, Prod.mk.sizeOf_spec] at hsz
        omega
      rw [deepMerge_cons t k v rest]
      rw [deepMerge_cons (deepMerge (objSet t k (mergeOne (objFind t k) v)) rest)]
      have hDfind : objFind (deepMerge (objSet t k (mergeOne (objFind t k) v)) rest) k =
          some (mergeOne (objFind t k) v) := by
        rw [deepMerge_find_of_none _ _ _ hfind, objFind_objSet_self]
      rw [hDfind]
      have habs : mergeOne (some (mergeOne (objFind t k) v)) v = mergeOne (objFind t k) v := by
        cases v with
        | obj m =>
          have hm : sizeOf m ≤ n := by
            simp only [List.cons.sizeOf_spec, Prod.mk.sizeOf_spec, Value.obj.sizeOf_spec] at hsz
            omega
          have hnm : nodupFields m = true := hv
          rw [mergeOne_obj, mergeOne_obj]
          show Value.obj (deepMerge (asEnumObj (some (Value.obj (deepMerge (asEnumObj (objFind t k)) m)))) m) = _
          have : asEnumObj (some (Value.obj (deepMerge (asEnumObj (objFind t k)) m))) =
              deepMerge (asEnumObj (objFind t k)) m := rfl
          rw [this, ih m hm hnm]
        | null => rw [mergeOne_null, mergeOne_null]
        | bool b => rw [mergeOne_bool, mergeOne_bool]
        | num x => rw [mergeOne_num, mergeOne_num]
        | str x => rw [mergeOne_str, mergeOne_str]
        | arr xs => rw [mergeOne_arr, mergeOne_arr]
      rw [habs]
      rw [objSet_of_find_eq _ _ _ hDfind]
      exact ih rest hrsz hrest (objSet t k (mergeOne (objFind t k) v))

/-! ## The singleton patch chain and the JSON write -/

theorem jsSplitAux_ne_nil (sep : Char) :
    ∀ (cs acc : List Char), jsSplitAux sep cs acc ≠ [] := by
  intro cs
  induction cs with
  | nil => intro acc; simp [jsSplitAux]
  | cons c rest ih =>
    intro acc
    by_cases h : c = sep
    · simp [jsSplitAux, h]
    · simpa [jsSplitAux, h] using ih (c :: acc)

theorem jsSplit_ne_nil (s : String) (sep : Char) : jsSplit s sep ≠ [] :=
  jsSplitAux_ne_nil sep (strChars s) []

theorem mem_of_getLastSome : ∀ (l : List String) (a : String),
    l.getLast? = some a → a ∈ l := by
  intro l
  induction l with
  | nil => intro a h; simp at h
  | cons x rest ih =>
    intro a h
    cases rest with
    | nil =>
      have : x = a := by simpa [List.getLast?] using h
      simp [this]
    | cons y rest' =>
      rw [List.getLast?_cons_cons] at h
      exact List.mem_cons_of_mem _ (ih a h)

theorem setNestedDoc_single (d : Doc) (k : String) (v : Value) (hk : k ≠ "") :
    setNestedDoc d [k] v = objSet d k v := by
  unfold setNestedDoc
  rw [show ([k] : List String).getLast? = some k from rfl]
  simp only [if_neg hk]
  rfl

theorem setNestedDoc_cons_cons (d : Doc) (k k' : String) (rest : List String)
    (v : Value) (last : String) (hlast : (k' :: rest).getLast? = some last)
    (hne : last ≠ "") :
    setNestedDoc d (k :: k' :: rest) v =
      objSet d k (Value.obj (setNestedDoc
        (match objFind d k with
         | some (Value.obj m) => m
         | _ => []) (k' :: rest) v)) := by
  unfold setNestedDoc
  rw [List.getLast?_cons_cons, hlast]
  simp only [if_neg hne]
  rw [show (k :: k' :: rest).dropLast = k :: (k' :: rest).dropLast from rfl]
  rfl

theorem exists_getLast_of_cons (k : String) (rest : List String) :
    ∃ a, (k :: rest).getLast? = some a := by
  cases h : (k :: rest).getLast? with
  | some a => exact ⟨a, rfl⟩
  | none =>
    rw [List.getLast?_eq_none_iff] at h
    simp at h

theorem setNestedDoc_nil_eq_nestDoc :
    ∀ (parts : List String) (sv : Value), (∀ p ∈ parts, p ≠ "") → parts ≠ [] →
      setNestedDoc [] parts sv = nestDoc parts sv := by
  intro parts
  induction parts with
  | nil => intro sv _ h; exact absurd rfl h
  | cons k rest ih =>
    intro sv hp _
    cases rest with
    | nil =>
      have hk : k ≠ "" := hp k (by simp)
      rw [setNestedDoc_single [] k sv hk]
      rfl
    | cons k' rest' =>
      obtain ⟨last, hlast⟩ := exists_getLast_of_cons k' rest'
      have hlmem : last ∈ (k' :: rest') := mem_of_getLastSome _ _ hlast
      have hlne : last ≠ "" := hp last (List.mem_cons_of_mem _ hlmem)
      have ihh := ih sv (fun p hp' => hp p (List.mem_cons_of_mem _ hp')) (by simp)
      rw [setNestedDoc_cons_cons [] k k' rest' sv last hlast hlne]
      rw [show (match objFind ([] : Doc) k with
            | some (Value.obj m) => m
            | _ => []) = ([] : Doc) from rfl]
      rw [ihh]
      rfl

theorem nodupFields_nestDoc :
    ∀ (parts : List String) (w : Value), nodupValue w = true → parts ≠ [] →
      nodupFields (nestDoc parts w) = true := by
  intro parts
  induction parts with
  | nil => intro w _ h; exact absurd rfl h
  | cons k rest ih =>
    intro w hw _
    cases rest with
    | nil =>
      show (!(objFind [] k).isSome && nodupValue w && nodupFields []) = true
      simp [objFind, nodupFields, hw]
    | cons k' rest' =>
      have ihh := ih w hw (by simp)
      show (!(objFind [] k).isSome && nodupValue (Value.obj (nestDoc (k' :: rest') w)) &&
        nodupFields []) = true
      simp only [objFind, Option.isSome_none, Bool.not_false, Bool.true_and, nodupFields,
        Bool.and_true]
      show nodupFields (nestDoc (k' :: rest') w) = true
      exact ihh

theorem objFind_nestDoc_ne (k : String) (rest : List String) (w : Value)
    (q : String) (h : k ≠ q) : objFind (nestDoc (k :: rest) w) q = none := by
  cases rest with
  | nil => simp [nestDoc, objFind, h]
  | cons k' rest' => simp [nestDoc, objFind, h]

theorem objWalk_walkPath :
    ∀ (parts : List String) (d m : Doc), objWalk d parts = some m →
      walkPath (Value.obj d) parts = some (Value.obj m) := by
  intro parts
  induction parts with
  | nil =>
    intro d m h
    have : d = m := by simpa [objWalk] using h
    simp [walkPath, this]
  | cons k rest ih =>
    intro d m h
    cases hx : objFind d k with
    | none => rw [objWalk, hx] at h; simp at h
    | some w =>
      cases w with
      | obj m1 =>
        rw [objWalk, hx] at h
        have hwalk := ih m1 m h
        rw [walkPath]
        have hin : jsIn (Value.obj d) k = true := by simp [jsIn, hx]
        rw [if_pos hin]
        have : jsIndex (Value.obj d) k = Value.obj m1 := by simp [jsIndex, hx]
        rw [this]
        exact hwalk
      | null => rw [objWalk, hx] at h; simp at h
      | bool b => rw [objWalk, hx] at h; simp at h
      | num x => rw [objWalk, hx] at h; simp at h
      | str x => rw [objWalk, hx] at h; simp at h
      | arr xs => rw [objWalk, hx] at h; simp at h

theorem mergeAtChain_of_objWalk :
    ∀ (parts : List String) (d m fields : Doc), objWalk d parts = some m →
      parts ≠ [] → mergeAtChain d parts fields = deepMerge m fields := by
  intro parts
  induction parts with
  | nil => intro d m fields _ h; exact absurd rfl h
  | cons k rest ih =>
    intro d m fields h _
    cases hx : objFind d k with
    | none => rw [objWalk, hx] at h; simp at h
    | some w =>
      cases w with
      | obj m1 =>
        rw [objWalk, hx] at h
        cases rest with
        | nil =>
          have : m1 = m := by simpa [objWalk] using h
          subst this
          show deepMerge (asEnumObj (objFind d k)) fields = deepMerge m1 fields
          rw [hx]
          rfl
        | cons k' rest' =>
          show mergeAtChain (asEnumObj (objFind d k)) (k' :: rest') fields = deepMerge m fields
          rw [hx]
          exact ih m1 m fields h (by simp)
      | null => rw [objWalk, hx] at h; simp at h
      | bool b => rw [objWalk, hx] at h; simp at h
      | num x => rw [objWalk, hx] at h; simp at h
      | str x => rw [objWalk, hx] at h; simp at h
      | arr xs => rw [objWalk, hx] at h; simp at h

theorem walkPath_deepMerge_nestDoc :
    ∀ (parts : List String) (d fields : Doc), parts ≠ [] →
      walkPath (Value.obj (deepMerge d (nestDoc parts (Value.obj fields)))) parts =
        some (Value.obj (mergeAtChain d parts fields)) := by
  intro parts
  induction parts with
  | nil => intro d fields h; exact absurd rfl h
  | cons k rest ih =>
    intro d fields _
    cases rest with
    | nil =>
      have hmerged : deepMerge d (nestDoc [k] (Value.obj fields)) =
          objSet d k (Value.obj (deepMerge (asEnumObj (objFind d k)) fields)) := by
        rw [show nestDoc [k] (Value.obj fields) = [(k, Value.obj fields)] from rfl,
          deepMerge_cons, mergeOne_obj, deepMerge_nil]
      rw [hmerged, walkPath]
      have hin : jsIn (Value.obj (objSet d k (Value.obj (deepMerge (asEnumObj (objFind d k)) fields)))) k = true := by
        simp [jsIn, objFind_objSet_self]
      rw [if_pos hin]
      have : jsIndex (Value.obj (objSet d k (Value.obj (deepMerge (asEnumObj (objFind d k)) fields)))) k =
          Value.obj (deepMerge (asEnumObj (objFind d k)) fields) := by
        simp [jsIndex, objFind_objSet_self]
      rw [this]
      rfl
    | cons k' rest' =>
      have hmerged : deepMerge d (nestDoc (k :: k' :: rest') (Value.obj fields)) =
          objSet d k (Value.obj (deepMerge (asEnumObj (objFind d k))
            (nestDoc (k' :: rest') (Value.obj fields)))) := by
        rw [show nestDoc (k :: k' :: rest') (Value.obj fields) =
          [(k, Value.obj (nestDoc (k' :: rest') (Value.obj fields)))] from rfl,
          deepMerge_cons, mergeOne_obj, deepMerge_nil]
      rw [hmerged, walkPath]
      have hin : jsIn (Value.obj (objSet d k (Value.obj (deepMerge (asEnumObj (objFind d k))
          (nestDoc (k' :: rest') (Value.obj fields)))))) k = true := by
        simp [jsIn, objFind_objSet_self]
      rw [if_pos hin]
      have : jsIndex (Value.obj (objSet d k (Value.obj (deepMerge (asEnumObj (objFind d k))
          (nestDoc (k' :: rest') (Value.obj fields)))))) k =
          Value.obj (deepMerge (asEnumObj (objFind d k))
            (nestDoc (k' :: rest') (Value.obj fields))) := by
        simp [jsIndex, objFind_objSet_self]
      rw [this]
      rw [ih (asEnumObj (objFind d k)) fields (by simp)]
      rfl

theorem jsonPatchable_nil (parts : List String) (h : parts ≠ []) :
    jsonPatchable [] parts = true := by
  cases parts with
  | nil => exact absurd rfl h
  | cons k rest =>
    cases rest with
    | nil => rfl
    | cons k' rest' => simp [jsonPatchable, objFind]

theorem setNestedDoc_patch_eq :
    ∀ (parts : List String) (d fields : Doc), parts ≠ [] → (∀ p ∈ parts, p ≠ "") →
      jsonPatchable d parts = true →
      setNestedDoc d parts (Value.obj (mergeAtChain d parts fields)) =
        deepMerge d (nestDoc parts (Value.obj fields)) := by
  intro parts
  induction parts with
  | nil => intro d fields h _ _; exact absurd rfl h
  | cons k rest ih =>
    intro d fields _ hp hpatch
    cases rest with
    | nil =>
      have hk : k ≠ "" := hp k (by simp)
      rw [setNestedDoc_single d k _ hk]
      rw [show nestDoc [k] (Value.obj fields) = [(k, Value.obj fields)] from rfl,
        deepMerge_cons, mergeOne_obj, deepMerge_nil]
      rfl
    | cons k' rest' =>
      obtain ⟨last, hlast⟩ := exists_getLast_of_cons k' rest'
      have hlmem : last ∈ (k' :: rest') := mem_of_getLastSome _ _ hlast
      have hlne : last ≠ "" := hp last (List.mem_cons_of_mem _ hlmem)
      have hmerged : deepMerge d (nestDoc (k :: k' :: rest') (Value.obj fields)) =
          objSet d k (Value.obj (deepMerge (asEnumObj (objFind d k))
            (nestDoc (k' :: rest') (Value.obj fields)))) := by
        rw [show nestDoc (k :: k' :: rest') (Value.obj fields) =
          [(k, Value.obj (nestDoc (k' :: rest') (Value.obj fields)))] from rfl,
          deepMerge_cons, mergeOne_obj, deepMerge_nil]
      rw [hmerged]
      rw [setNestedDoc_cons_cons d k k' rest' _ last hlast hlne]
      have hchain : mergeAtChain d (k :: k' :: rest') fields =
          mergeAtChain (asEnumObj (objFind d k)) (k' :: rest') fields := rfl
      cases hx : objFind d k with
      | none =>
        rw [hx] at hchain
        rw [show (match (none : Option Value) with
              | some (Value.obj m) => m
              | _ => []) = ([] : Doc) from rfl]
        rw [hchain]
        rw [show asEnumObj none = ([] : Doc) from rfl]
        rw [ih [] fields (by simp) (fun p hp' => hp p (List.mem_cons_of_mem _ hp'))
          (jsonPatchable_nil _ (by simp))]
      | some w =>
        cases w with
        | obj m1 =>
          rw [hx] at hchain
          have hpatch' : jsonPatchable m1 (k' :: rest') = true := by
            rw [jsonPatchable, hx] at hpatch
            exact hpatch
          rw [show (match (some (Value.obj m1) : Option Value) with
                | some (Value.obj m) => m
                | _ => []) = m1 from rfl]
          rw [hchain]
          rw [show asEnumObj (some (Value.obj m1)) = m1 from rfl]
          rw [ih m1 fields (by simp) (fun p hp' => hp p (List.mem_cons_of_mem _ hp')) hpatch']
        | null => rw [jsonPatchable, hx] at hpatch; simp at hpatch
        | bool b => rw [jsonPatchable, hx] at hpatch; simp at hpatch
        | num x => rw [jsonPatchable, hx] at hpatch; simp at hpatch
        | str x => rw [jsonPatchable, hx] at hpatch; simp at hpatch
        | arr xs => rw [jsonPatchable, hx] at hpatch; simp at hpatch

/-- At the parsed-document level, both strategies of the JSON codec write
produce the merged tree: the textual patch sets the config-key path of the
existing document to exactly the subtree that merging would produce there,
and the fallback serializes the merged tree itself. -/
theorem writeJsonDoc_nestDoc_eq (parts : List String) (d fields : Doc)
    (h1 : parts ≠ []) (h2 : ∀ p ∈ parts, p ≠ "") :
    writeJsonDoc (some d) (nestDoc parts (Value.obj fields)) parts =
      deepMerge d (nestDoc parts (Value.obj fields)) := by
  show (match walkPath (Value.obj (deepMerge d (nestDoc parts (Value.obj fields)))) parts with
    | some newValue =>
        if jsonPatchable d parts = true then setNestedDoc d parts newValue
        else deepMerge d (nestDoc parts (Value.obj fields))
    | none => deepMerge d (nestDoc parts (Value.obj fields))) =
      deepMerge d (nestDoc parts (Value.obj fields))
  rw [walkPath_deepMerge_nestDoc parts d fields h1]
  by_cases hp : jsonPatchable d parts = true
  · simp only [hp, if_true]
    exact setNestedDoc_patch_eq parts d fields h1 h2 hp
  · simp only [Bool.not_eq_true] at hp
    simp only [hp, Bool.false_eq_true, if_false]

theorem buildConfigWithKey_eq_nestDoc (key serverName : String) (tv : Value)
    (h : ∀ p ∈ jsSplit key '.', p ≠ "") :
    buildConfigWithKey key serverName tv =
      nestDoc (jsSplit key '.') (Value.obj [(serverName, tv)]) :=
  setNestedDoc_nil_eq_nestDoc _ _ h (jsSplit_ne_nil key '.')

theorem nodupFields_buildConfigWithKey (key serverName : String) (tv : Value)
    (h : ∀ p ∈ jsSplit key '.', p ≠ "") (hn : nodupValue tv = true) :
    nodupFields (buildConfigWithKey key serverName tv) = true := by
  rw [buildConfigWithKey_eq_nestDoc key serverName tv h]
  apply nodupFields_nestDoc _ _ _ (jsSplit_ne_nil key '.')
  show nodupFields [(serverName, tv)] = true
  simp [nodupFields, objFind, hn]

/-- The JSON codec write on an existing document is the deep merge of the
installer's single-entry patch. -/
theorem writeJsonDoc_build_eq (d : Doc) (key serverName : String) (tv : Value)
    (h : ∀ p ∈ jsSplit key '.', p ≠ "") :
    writeJsonDoc (some d) (buildConfigWithKey key serverName tv) (jsSplit key '.') =
      deepMerge d (buildConfigWithKey key serverName tv) := by
  rw [buildConfigWithKey_eq_nestDoc key serverName tv h]
  exact writeJsonDoc_nestDoc_eq _ _ _ (jsSplit_ne_nil key '.') h

/-! ## Remaining small helpers -/

theorem mergeOne_none_of_nodup (tv : Value) (h : nodupValue tv = true) :
    mergeOne none tv = tv := by
  cases tv with
  | obj m =>
    rw [mergeOne_obj]
    show Value.obj (deepMerge [] m) = Value.obj m
    rw [deepMerge_nil_left m h]
  | null => rfl
  | bool b => rfl
  | num x => rfl
  | str x => rfl
  | arr xs => rfl

theorem getConfigKeyM_eq (a : AgentType) (isLocal : Bool) :
    getConfigKeyM a isLocal = agentConfigKey a := by
  cases isLocal <;> rfl

theorem agentKeyParts_ok (a : AgentType) :
    ∀ p ∈ jsSplit (agentConfigKey a) '.', p ≠ "" := by
  cases a <;> decide

theorem updateFS_read_same (fs : FS) (p : String) (st : FileState) :
    updateFS fs p st p = st := by
  simp [updateFS]

theorem updateFS_absorb (fs : FS) (p : String) (st : FileState) :
    updateFS (updateFS fs p st) p st = updateFS fs p st := by
  funext q
  by_cases h : q = p <;> simp [updateFS, h]

theorem writeJsonConfigM_eq (path : String) (config : Doc) (key : String) (fs : FS) :
    writeJsonConfigM path config key fs =
      updateFS fs path (validFile (writeJsonDoc
        (match fs path with
         | FileState.absent => none
         | FileState.file _ lenient => some lenient) config (jsSplit key '.'))) := rfl

theorem installServerForAgentM_eq (serverName : String) (cfg : McpServerConfig)
    (a : AgentType) (isLocal : Bool) (cwd : String) (fs : FS) :
    installServerForAgentM serverName cfg a isLocal cwd fs =
      match writeConfigM (getConfigPathM a isLocal cwd)
          (buildConfigWithKey (getConfigKeyM a isLocal) serverName
            (applyAgentTransform a serverName cfg))
          (agentFormat a) (getConfigKeyM a isLocal) fs with
      | Except.ok fs' => (⟨true, getConfigPathM a isLocal cwd, none⟩, fs')
      | Except.error e => (⟨false, getConfigPathM a isLocal cwd, some e⟩, fs) := rfl

/-- The JSON codec write is idempotent at filesystem level for the
installer's single-entry patches. -/
theorem writeJsonConfigM_idem (path key serverName : String) (tv : Value) (fs : FS)
    (hkeys : ∀ p ∈ jsSplit key '.', p ≠ "") (hnd : nodupValue tv = true) :
    writeJsonConfigM path (buildConfigWithKey key serverName tv) key
      (writeJsonConfigM path (buildConfigWithKey key serverName tv) key fs) =
    writeJsonConfigM path (buildConfigWithKey key serverName tv) key fs := by
  have hnf : nodupFields (buildConfigWithKey key serverName tv) = true :=
    nodupFields_buildConfigWithKey key serverName tv hkeys hnd
  set patch := buildConfigWithKey key serverName tv with hpatch
  have habs : ∀ x : Doc, deepMerge (deepMerge x patch) patch = deepMerge x patch :=
    fun x => deepMerge_absorb (sizeOf patch) patch le_rfl hnf x
  cases hfs : fs path with
  | absent =>
    have h1 : writeJsonConfigM path patch key fs =
        updateFS fs path (validFile (deepMerge [] patch)) := by
      rw [writeJsonConfigM_eq, hfs]
      rfl
    rw [h1, writeJsonConfigM_eq, updateFS_read_same]
    show updateFS _ path (validFile (writeJsonDoc (some (deepMerge [] patch)) patch
      (jsSplit key '.'))) = _
    rw [hpatch, writeJsonDoc_build_eq _ _ _ _ hkeys, ← hpatch, habs]
    exact updateFS_absorb fs path (validFile (deepMerge [] patch))
  | file strict lenient =>
    have h1 : writeJsonConfigM path patch key fs =
        updateFS fs path (validFile (writeJsonDoc (some lenient) patch (jsSplit key '.'))) := by
      rw [writeJsonConfigM_eq, hfs]
    have h2 : writeJsonDoc (some lenient) patch (jsSplit key '.') =
        deepMerge lenient patch := by
      rw [hpatch]
      exact writeJsonDoc_build_eq _ _ _ _ hkeys
    rw [h1, h2, writeJsonConfigM_eq, updateFS_read_same]
    show updateFS _ path (validFile (writeJsonDoc (some (deepMerge lenient patch)) patch
      (jsSplit key '.'))) = _
    rw [hpatch, writeJsonDoc_build_eq _ _ _ _ hkeys, ← hpatch, habs]
    exact updateFS_absorb fs path (validFile (deepMerge lenient patch))

/-! ## Claim C1 -/

/-- C1: for every existing config document with an unrelated top-level key
`"fooBar": 1` and an existing server entry `"server1"` under the (dotted)
config key, the JSON codec write of the installer's patch for a different
server `"server2"` keeps `"fooBar"` and `"server1"` with their original
values and adds `"server2"` with exactly the transformed record. -/
theorem C1_nondestructive_merge (d m : Doc) (key : String) (v1 tv : Value)
    (hkeys : ∀ p ∈ jsSplit key '.', p ≠ "")
    (hhead : (jsSplit key '.').head? ≠ some "fooBar")
    (hfoo : objFind d "fooBar" = some (Value.num 1))
    (hwalk : objWalk d (jsSplit key '.') = some m)
    (h1 : objFind m "server1" = some v1)
    (h2 : objFind m "server2" = none)
    (hnd : nodupValue tv = true) :
    objFind (writeJsonDoc (some d) (buildConfigWithKey key "server2" tv)
      (jsSplit key '.')) "fooBar" = some (Value.num 1) ∧
    walkPath (Value.obj (writeJsonDoc (some d) (buildConfigWithKey key "server2" tv)
      (jsSplit key '.'))) (jsSplit key '.') =
      some (Value.obj (objSet m "server2" tv)) ∧
    objFind (objSet m "server2" tv) "server1" = some v1 ∧
    objFind (objSet m "server2" tv) "server2" = some tv := by
  have hne := jsSplit_ne_nil key '.'
  rw [writeJsonDoc_build_eq d key "server2" tv hkeys,
    buildConfigWithKey_eq_nestDoc key "server2" tv hkeys]
  obtain ⟨k0, rest0, hparts⟩ : ∃ k0 rest0, jsSplit key '.' = k0 :: rest0 := by
    cases hx : jsSplit key '.' with
    | nil => exact absurd hx hne
    | cons k0 rest0 => exact ⟨k0, rest0, rfl⟩
  have hk0 : k0 ≠ "fooBar" := by
    intro e
    rw [hparts, e] at hhead
    simp at hhead
  refine ⟨?_, ?_, ?_, ?_⟩
  · have hnone : objFind (nestDoc (jsSplit key '.') (Value.obj [("server2", tv)])) "fooBar" = none := by
      rw [hparts]
      exact objFind_nestDoc_ne k0 rest0 _ "fooBar" hk0
    rw [deepMerge_find_of_none _ _ _ hnone]
    exact hfoo
  · rw [walkPath_deepMerge_nestDoc _ _ _ hne]
    rw [mergeAtChain_of_objWalk _ _ _ _ hwalk hne]
    rw [deepMerge_cons, h2, mergeOne_none_of_nodup tv hnd, deepMerge_nil]
  · rw [objFind_objSet_ne _ _ _ _ (by decide : "server2" ≠ "server1")]
    exact h1
  · exact objFind_objSet_self m "server2" tv

/-- Witness for C1 at a concrete document, config key and server record. -/
theorem C1_witness :
    objFind (writeJsonDoc
      (some [("fooBar", Value.num 1), ("mcpServers", Value.obj [("server1", Value.str "A")])])
      (buildConfigWithKey "mcpServers" "server2"
        (Value.obj [("type", Value.str "http"), ("url", Value.str "https://b")]))
      (jsSplit "mcpServers" '.')) "fooBar" = some (Value.num 1) ∧
    walkPath (Value.obj (writeJsonDoc
      (some [("fooBar", Value.num 1), ("mcpServers", Value.obj [("server1", Value.str "A")])])
      (buildConfigWithKey "mcpServers" "server2"
        (Value.obj [("type", Value.str "http"), ("url", Value.str "https://b")]))
      (jsSplit "mcpServers" '.'))) (jsSplit "mcpServers" '.') =
      some (Value.obj (objSet [("server1", Value.str "A")] "server2"
        (Value.obj [("type", Value.str "http"), ("url", Value.str "https://b")]))) ∧
    objFind (objSet [("server1", Value.str "A")] "server2"
      (Value.obj [("type", Value.str "http"), ("url", Value.str "https://b")])) "server1" =
      some (Value.str "A") ∧
    objFind (objSet [("server1", Value.str "A")] "server2"
      (Value.obj [("type", Value.str "http"), ("url", Value.str "https://b")])) "server2" =
      some (Value.obj [("type", Value.str "http"), ("url", Value.str "https://b")]) :=
  C1_nondestructive_merge
    [("fooBar", Value.num 1), ("mcpServers", Value.obj [("server1", Value.str "A")])]
    [("server1", Value.str "A")] "mcpServers" (Value.str "A")
    (Value.obj [("type", Value.str "http"), ("url", Value.str "https://b")])
    (by decide) (by decide) rfl rfl rfl rfl rfl

/-! ## Claim C2 -/

/-- C2: installing the same `(serverName, ServerConfig)` pair twice to the
same agent, scope and working directory is idempotent: the filesystem after
the second install equals the filesystem after the first, for every
starting filesystem (hence every starting document) and every format. -/
theorem C2_install_idempotent (serverName : String) (cfg : McpServerConfig)
    (a : AgentType) (isLocal : Bool) (cwd : String) (fs : FS)
    (hnd : nodupValue (applyAgentTransform a serverName cfg) = true) :
    (installServerForAgentM serverName cfg a isLocal cwd
      (installServerForAgentM serverName cfg a isLocal cwd fs).2).2 =
    (installServerForAgentM serverName cfg a isLocal cwd fs).2 := by
  have hkeys : ∀ p ∈ jsSplit (getConfigKeyM a isLocal) '.', p ≠ "" := by
    rw [getConfigKeyM_eq]; exact agentKeyParts_ok a
  set path := getConfigPathM a isLocal cwd with hpathdef
  set key := getConfigKeyM a isLocal with hkeydef
  set tv := applyAgentTransform a serverName cfg with htvdef
  set patch := buildConfigWithKey key serverName tv with hpatchdef
  have hnf : nodupFields patch = true :=
    nodupFields_buildConfigWithKey key serverName tv hkeys hnd
  have habs : ∀ x : Doc, deepMerge (deepMerge x patch) patch = deepMerge x patch :=
    fun x => deepMerge_absorb (sizeOf patch) patch le_rfl hnf x
  rw [installServerForAgentM_eq serverName cfg a isLocal cwd fs]
  cases hfmt : agentFormat a with
  | json =>
    have h1 : writeConfigM path patch ConfigFormat.json key fs =
        Except.ok (writeJsonConfigM path patch key fs) := rfl
    rw [h1]
    show (installServerForAgentM serverName cfg a isLocal cwd
      (writeJsonConfigM path patch key fs)).2 = writeJsonConfigM path patch key fs
    rw [installServerForAgentM_eq, hfmt]
    have h2 : writeConfigM path patch ConfigFormat.json key (writeJsonConfigM path patch key fs) =
        Except.ok (writeJsonConfigM path patch key (writeJsonConfigM path patch key fs)) := rfl
    rw [← hpathdef, ← hkeydef, ← htvdef, ← hpatchdef, h2]
    show writeJsonConfigM path patch key (writeJsonConfigM path patch key fs) =
      writeJsonConfigM path patch key fs
    rw [hpatchdef]
    exact writeJsonConfigM_idem path key serverName tv fs hkeys hnd
  | yaml =>
    cases hfs : fs path with
    | absent =>
      have h1 : writeConfigM path patch ConfigFormat.yaml key fs =
          Except.ok (updateFS fs path (validFile (deepMerge [] patch))) := by
        show writeYamlConfigM path patch fs = _
        rw [writeYamlConfigM, hfs]
      rw [h1]
      show (installServerForAgentM serverName cfg a isLocal cwd
        (updateFS fs path (validFile (deepMerge [] patch)))).2 = _
      rw [installServerForAgentM_eq, hfmt, ← hpathdef, ← hkeydef, ← htvdef, ← hpatchdef]
      have h2 : writeConfigM path patch ConfigFormat.yaml key
          (updateFS fs path (validFile (deepMerge [] patch))) =
          Except.ok (updateFS (updateFS fs path (validFile (deepMerge [] patch))) path
            (validFile (deepMerge (deepMerge [] patch) patch))) := by
        show writeYamlConfigM path patch _ = _
        rw [writeYamlConfigM, updateFS_read_same]
        rfl
      rw [h2, habs, updateFS_absorb]
    | file strict lenient =>
      cases strict with
      | some d =>
        have h1 : writeConfigM path patch ConfigFormat.yaml key fs =
            Except.ok (updateFS fs path (validFile (deepMerge d patch))) := by
          show writeYamlConfigM path patch fs = _
          rw [writeYamlConfigM, hfs]
        rw [h1]
        show (installServerForAgentM serverName cfg a isLocal cwd
          (updateFS fs path (validFile (deepMerge d patch)))).2 = _
        rw [installServerForAgentM_eq, hfmt, ← hpathdef, ← hkeydef, ← htvdef, ← hpatchdef]
        have h2 : writeConfigM path patch ConfigFormat.yaml key
            (updateFS fs path (validFile (deepMerge d patch))) =
            Except.ok (updateFS (updateFS fs path (validFile (deepMerge d patch))) path
              (validFile (deepMerge (deepMerge d patch) patch))) := by
          show writeYamlConfigM path patch _ = _
          rw [writeYamlConfigM, updateFS_read_same]
          rfl
        rw [h2, habs, updateFS_absorb]
      | none =>
        have h1 : writeConfigM path patch ConfigFormat.yaml key fs =
            Except.error "YAMLException: parse error" := by
          show writeYamlConfigM path patch fs = _
          rw [writeYamlConfigM, hfs]
        rw [h1]
        show (installServerForAgentM serverName cfg a isLocal cwd fs).2 = fs
        rw [installServerForAgentM_eq, hfmt, ← hpathdef, ← hkeydef, ← htvdef, ← hpatchdef, h1]
  | toml =>
    cases hfs : fs path with
    | absent =>
      have h1 : writeConfigM path patch ConfigFormat.toml key fs =
          Except.ok (updateFS fs path (validFile (deepMerge [] patch))) := by
        show writeTomlConfigM path patch fs = _
        rw [writeTomlConfigM, hfs]
      rw [h1]
      show (installServerForAgentM serverName cfg a isLocal cwd
        (updateFS fs path (validFile (deepMerge [] patch)))).2 = _
      rw [installServerForAgentM_eq, hfmt, ← hpathdef, ← hkeydef, ← htvdef, ← hpatchdef]
      have h2 : writeConfigM path patch ConfigFormat.toml key
          (updateFS fs path (validFile (deepMerge [] patch))) =
          Except.ok (updateFS (updateFS fs path (validFile (deepMerge [] patch))) path
            (validFile (deepMerge (deepMerge [] patch) patch))) := by
        show writeTomlConfigM path patch _ = _
        rw [writeTomlConfigM, updateFS_read_same]
        rfl
      rw [h2, habs, updateFS_absorb]
    | file strict lenient =>
      cases strict with
      | some d =>
        have h1 : writeConfigM path patch ConfigFormat.toml key fs =
            Except.ok (updateFS fs path (validFile (deepMerge d patch))) := by
          show writeTomlConfigM path patch fs = _
          rw [writeTomlConfigM, hfs]
        rw [h1]
        show (installServerForAgentM serverName cfg a isLocal cwd
          (updateFS fs path (validFile (deepMerge d patch)))).2 = _
        rw [installServerForAgentM_eq, hfmt, ← hpathdef, ← hkeydef, ← htvdef, ← hpatchdef]
        have h2 : writeConfigM path patch ConfigFormat.toml key
            (updateFS fs path (validFile (deepMerge d patch))) =
            Except.ok (updateFS (updateFS fs path (validFile (deepMerge d patch))) path
              (validFile (deepMerge (deepMerge d patch) patch))) := by
          show writeTomlConfigM path patch _ = _
          rw [writeTomlConfigM, updateFS_read_same]
          rfl
        rw [h2, habs, updateFS_absorb]
      | none =>
        have h1 : writeConfigM path patch ConfigFormat.toml key fs =
            Except.error "TomlError: parse error" := by
          show writeTomlConfigM path patch fs = _
          rw [writeTomlConfigM, hfs]
        rw [h1]
        show (installServerForAgentM serverName cfg a isLocal cwd fs).2 = fs
        rw [installServerForAgentM_eq, hfmt, ← hpathdef, ← hkeydef, ← htvdef, ← hpatchdef, h1]

/-- Witness for C2: installing a concrete remote server twice to Cursor on
a fresh filesystem. -/
theorem C2_witness :
    (installServerForAgentM "neon"
      { type := some "http", url := some "https://mcp.neon.tech/mcp" }
      AgentType.cursor false ""
      (installServerForAgentM "neon"
        { type := some "http", url := some "https://mcp.neon.tech/mcp" }
        AgentType.cursor false "" (fun _ => FileState.absent)).2).2 =
    (installServerForAgentM "neon"
      { type := some "http", url := some "https://mcp.neon.tech/mcp" }
      AgentType.cursor false "" (fun _ => FileState.absent)).2 :=
  C2_install_idempotent "neon"
    { type := some "http", url := some "https://mcp.neon.tech/mcp" }
    AgentType.cursor false "" (fun _ => FileState.absent) (by decide)

/-! ## Claim C4 -/

/-- C4 counterexample: the claim says that whenever existing and incoming
values are not both maps the incoming value replaces the existing one
entirely, but merging the map `{b: 3}` onto the existing array `[1, 2]`
spreads the array into the index-keyed object `{"0": 1, "1": 2, "b": 3}`
instead of replacing it, so `deepMerge` differs from the spec-worded merge
at this input. -/
theorem C4_counterexample :
    deepMerge [("a", Value.arr [Value.num 1, Value.num 2])]
      [("a", Value.obj [("b", Value.num 3)])] ≠
    specDeepMerge [("a", Value.arr [Value.num 1, Value.num 2])]
      [("a", Value.obj [("b", Value.num 3)])] := by
  intro h
  have h' : [("a", Value.obj [("0", Value.num 1), ("1", Value.num 2), ("b", Value.num 3)])] =
      [("a", Value.obj [("b", Value.num 3)])] := h
  simp at h'

/-- C4 (amended): pointwise law of the codec deep-merge.  A key present
only in the existing document keeps its value; a key whose incoming value
is a non-array map is merged recursively into the existing value coerced to
an enumerable object (an existing map stays, an existing array spreads to
its index keys, anything else becomes the empty map); in every other case
(scalars, null, and arrays in particular) the incoming value replaces the
existing one entirely, so arrays are replaced, never concatenated. -/
theorem C4_merge_pointwise (t s : Doc) (k : String)
    (hs : topKeysNodup s = true) :
    objFind (deepMerge t s) k =
      match objFind s k with
      | none => objFind t k
      | some (Value.obj m) => some (Value.obj (deepMerge (asEnumObj (objFind t k)) m))
      | some v => some v := by
  rw [deepMerge_find_char t s k hs]
  cases hx : objFind s k with
  | none => rfl
  | some v => cases v <;> rfl

/-- Witness for C4 at concrete documents: an untouched key, a replaced
array, and a map merged onto an array. -/
theorem C4_witness :
    objFind (deepMerge
      [("keep", Value.num 7), ("a", Value.arr [Value.num 1, Value.num 2])]
      [("a", Value.obj [("b", Value.num 3)]), ("arr2", Value.arr [Value.num 9])]) "a" =
      match objFind [("a", Value.obj [("b", Value.num 3)]), ("arr2", Value.arr [Value.num 9])] "a" with
      | none => objFind [("keep", Value.num 7), ("a", Value.arr [Value.num 1, Value.num 2])] "a"
      | some (Value.obj m) =>
          some (Value.obj (deepMerge (asEnumObj
            (objFind [("keep", Value.num 7), ("a", Value.arr [Value.num 1, Value.num 2])] "a")) m))
      | some v => some v :=
  C4_merge_pointwise
    [("keep", Value.num 7), ("a", Value.arr [Value.num 1, Value.num 2])]
    [("a", Value.obj [("b", Value.num 3)]), ("arr2", Value.arr [Value.num 9])]
    "a" (by decide)

/-! ## Claim C10 -/

/-- C10: reinstalling an existing server name with the other variant does
not cleanly replace the old entry.  For a concrete document holding a local
entry `{command, args}` under `"N"`, installing the remote config
`{type: "http", url}` under the same name through the full installer path
yields a final entry that contains both the new `url` and the old
`command`. -/
theorem C10_variant_switch_keeps_stale_fields :
    ((installServerForAgentM "N"
      { type := some "http", url := some "https://x" } AgentType.cursor false ""
      (fun p => if p = agentConfigPath AgentType.cursor then
        validFile [("mcpServers", Value.obj [("N", Value.obj
          [("command", Value.str "npx"),
           ("args", Value.arr [Value.str "-y", Value.str "pkg"])])])]
        else FileState.absent)).2 (agentConfigPath AgentType.cursor) =
      validFile [("mcpServers", Value.obj [("N", Value.obj
        [("command", Value.str "npx"),
         ("args", Value.arr [Value.str "-y", Value.str "pkg"]),
         ("type", Value.str "http"),
         ("url", Value.str "https://x")])])]) ∧
    (objFind [("command", Value.str "npx"),
       ("args", Value.arr [Value.str "-y", Value.str "pkg"]),
       ("type", Value.str "http"),
       ("url", Value.str "https://x")] "url").isSome = true ∧
    (objFind [("command", Value.str "npx"),
       ("args", Value.arr [Value.str "-y", Value.str "pkg"]),
       ("type", Value.str "http"),
       ("url", Value.str "https://x")] "command").isSome = true :=
  ⟨rfl, rfl, rfl⟩

/-! ## Claim C6 -/

theorem installLoop_cons (serverName : String) (cfg : McpServerConfig)
    (routing : AgentType → Option Scope) (cwd : String) (a : AgentType)
    (rest : List AgentType) (res : AgentType → Option InstallResultM) (fs : FS) :
    installLoop serverName cfg routing cwd (a :: rest) res fs =
      installLoop serverName cfg routing cwd rest
        (setResult res a (installServerForAgentM serverName cfg a
          (decide (routing a = some Scope.localScope)) cwd fs).1)
        (installServerForAgentM serverName cfg a
          (decide (routing a = some Scope.localScope)) cwd fs).2 := rfl

theorem installLoop_covers (serverName : String) (cfg : McpServerConfig)
    (routing : AgentType → Option Scope) (cwd : String) :
    ∀ (ags : List AgentType) (res : AgentType → Option InstallResultM) (fs : FS)
      (b : AgentType),
      ((installLoop serverName cfg routing cwd ags res fs).1 b).isSome = true ↔
        (b ∈ ags ∨ (res b).isSome = true) := by
  intro ags
  induction ags with
  | nil => intro res fs b; simp [installLoop]
  | cons a rest ih =>
    intro res fs b
    rw [installLoop_cons]
    rw [ih]
    by_cases hb : b = a
    · subst hb
      simp [setResult]
    · simp [setResult, hb]

theorem installLoop_routing_absent (serverName : String) (cfg : McpServerConfig)
    (cwd : String) (a : AgentType) (routing : AgentType → Option Scope)
    (h : routing a = none) :
    ∀ (ags : List AgentType) (res : AgentType → Option InstallResultM) (fs : FS),
      installLoop serverName cfg routing cwd ags res fs =
        installLoop serverName cfg
          (fun x => if x = a then some Scope.globalScope else routing x) cwd ags res fs := by
  intro ags
  induction ags with
  | nil => intro res fs; rfl
  | cons a' rest ih =>
    intro res fs
    rw [installLoop_cons, installLoop_cons]
    have hdec : decide (routing a' = some Scope.localScope) =
        decide ((if a' = a then some Scope.globalScope else routing a') = some Scope.localScope) := by
      by_cases e : a' = a
      · subst e; rw [h]; simp
      · simp [e]
    rw [← hdec]
    exact ih _ _

theorem installFail_fs_unchanged (serverName : String) (cfg : McpServerConfig)
    (a : AgentType) (isLocal : Bool) (cwd : String) (fs : FS)
    (h : (installServerForAgentM serverName cfg a isLocal cwd fs).1.success = false) :
    (installServerForAgentM serverName cfg a isLocal cwd fs).2 = fs := by
  rw [installServerForAgentM_eq] at h ⊢
  cases hw : writeConfigM (getConfigPathM a isLocal cwd)
      (buildConfigWithKey (getConfigKeyM a isLocal) serverName
        (applyAgentTransform a serverName cfg))
      (agentFormat a) (getConfigKeyM a isLocal) fs with
  | ok fs' => rw [hw] at h; simp at h
  | error e => rfl

theorem installLoop_append (serverName : String) (cfg : McpServerConfig)
    (routing : AgentType → Option Scope) (cwd : String) :
    ∀ (l1 l2 : List AgentType) (res : AgentType → Option InstallResultM) (fs : FS),
      installLoop serverName cfg routing cwd (l1 ++ l2) res fs =
        installLoop serverName cfg routing cwd l2
          (installLoop serverName cfg routing cwd l1 res fs).1
          (installLoop serverName cfg routing cwd l1 res fs).2 := by
  intro l1
  induction l1 with
  | nil => intro l2 res fs; rfl
  | cons a rest ih =>
    intro l2 res fs
    rw [List.cons_append, installLoop_cons, installLoop_cons]
    exact ih _ _ _

theorem installLoop_fs_res_indep (serverName : String) (cfg : McpServerConfig)
    (routing : AgentType → Option Scope) (cwd : String) :
    ∀ (ags : List AgentType) (res res' : AgentType → Option InstallResultM) (fs : FS),
      (installLoop serverName cfg routing cwd ags res fs).2 =
        (installLoop serverName cfg routing cwd ags res' fs).2 := by
  intro ags
  induction ags with
  | nil => intro res res' fs; rfl
  | cons a rest ih =>
    intro res res' fs
    rw [installLoop_cons, installLoop_cons]
    exact ih _ _ _

theorem installLoop_res_agree (serverName : String) (cfg : McpServerConfig)
    (routing : AgentType → Option Scope) (cwd : String) (a : AgentType) :
    ∀ (ags : List AgentType) (res res' : AgentType → Option InstallResultM) (fs : FS),
      (∀ b, b ≠ a → res b = res' b) →
      ∀ b, b ≠ a →
        (installLoop serverName cfg routing cwd ags res fs).1 b =
          (installLoop serverName cfg routing cwd ags res' fs).1 b := by
  intro ags
  induction ags with
  | nil => intro res res' fs hagree b hb; exact hagree b hb
  | cons a' rest ih =>
    intro res res' fs hagree b hb
    rw [installLoop_cons, installLoop_cons]
    apply ih
    · intro c hc
      by_cases e : c = a'
      · subst e; simp [setResult]
      · simp [setResult, e]; exact hagree c hc
    · exact hb

/-- C6: for every list of agent ids and every routing map, `installServer`
(1) produces exactly one result per requested agent id, (2) treats an agent
absent from the routing map exactly as one routed to Global scope, (3)
catches any error raised while installing one agent, reporting it in that
agent's result with the filesystem untouched by that step, and (4) a
failing agent neither prevents, rolls back, nor alters the installs of the
other agents: the final filesystem and every other agent's result are the
same as if the failing agent had not been requested. -/
theorem C6_installServer_contract :
    (∀ (serverName : String) (cfg : McpServerConfig) (ags : List AgentType)
        (routing : AgentType → Option Scope) (cwd : String) (fs : FS) (b : AgentType),
      ((installServerM serverName cfg ags routing cwd fs).1 b).isSome = true ↔ b ∈ ags) ∧
    (∀ (serverName : String) (cfg : McpServerConfig) (ags : List AgentType)
        (routing : AgentType → Option Scope) (cwd : String) (fs : FS) (a : AgentType),
      routing a = none →
      installServerM serverName cfg ags routing cwd fs =
        installServerM serverName cfg ags
          (fun x => if x = a then some Scope.globalScope else routing x) cwd fs) ∧
    (∀ (serverName : String) (cfg : McpServerConfig) (a : AgentType)
        (isLocal : Bool) (cwd : String) (fs : FS),
      (installServerForAgentM serverName cfg a isLocal cwd fs).1.success = false →
      (installServerForAgentM serverName cfg a isLocal cwd fs).2 = fs) ∧
    (∀ (serverName : String) (cfg : McpServerConfig) (l1 l2 : List AgentType)
        (a : AgentType) (routing : AgentType → Option Scope) (cwd : String) (fs : FS),
      (installServerForAgentM serverName cfg a
        (decide (routing a = some Scope.localScope)) cwd
        (installServerM serverName cfg l1 routing cwd fs).2).1.success = false →
      (installServerM serverName cfg (l1 ++ a :: l2) routing cwd fs).2 =
        (installServerM serverName cfg (l1 ++ l2) routing cwd fs).2 ∧
      (∀ b, b ≠ a →
        (installServerM serverName cfg (l1 ++ a :: l2) routing cwd fs).1 b =
          (installServerM serverName cfg (l1 ++ l2) routing cwd fs).1 b)) := by
  refine ⟨?_, ?_, ?_, ?_⟩
  · intro serverName cfg ags routing cwd fs b
    unfold installServerM
    rw [installLoop_covers]
    simp
  · intro serverName cfg ags routing cwd fs a h
    unfold installServerM
    exact installLoop_routing_absent serverName cfg cwd a routing h ags _ fs
  · intro serverName cfg a isLocal cwd fs h
    exact installFail_fs_unchanged serverName cfg a isLocal cwd fs h
  · intro serverName cfg l1 l2 a routing cwd fs hfail
    have hfs := installFail_fs_unchanged serverName cfg a
      (decide (routing a = some Scope.localScope)) cwd
      (installServerM serverName cfg l1 routing cwd fs).2 hfail
    constructor
    · unfold installServerM
      rw [installLoop_append, installLoop_append serverName cfg routing cwd l1 l2]
      rw [installLoop_cons]
      show (installLoop serverName cfg routing cwd l2 _
        (installServerForAgentM serverName cfg a
          (decide (routing a = some Scope.localScope)) cwd
          (installLoop serverName cfg routing cwd l1 (fun _ => none) fs).2).2).2 = _
      rw [show (installLoop serverName cfg routing cwd l1 (fun _ => none) fs).2 =
        (installServerM serverName cfg l1 routing cwd fs).2 from rfl, hfs]
      exact installLoop_fs_res_indep serverName cfg routing cwd l2 _ _ _
    · intro b hb
      unfold installServerM
      rw [installLoop_append, installLoop_append serverName cfg routing cwd l1 l2]
      rw [installLoop_cons]
      rw [show (installLoop serverName cfg routing cwd l1 (fun _ => none) fs).2 =
        (installServerM serverName cfg l1 routing cwd fs).2 from rfl, hfs]
      exact installLoop_res_agree serverName cfg routing cwd a l2 _ _ _
        (fun c hc => by simp [setResult, hc]) b hb

/-- Witness for C6: a malformed YAML config file for Goose makes that
single install fail and leaves the filesystem untouched. -/
theorem C6_witness :
    (installServerForAgentM "s" { command := some "npx" } AgentType.goose false ""
      (fun p => if p = agentConfigPath AgentType.goose then FileState.file none []
        else FileState.absent)).2 =
    (fun p => if p = agentConfigPath AgentType.goose then FileState.file none []
      else FileState.absent) :=
  C6_installServer_contract.2.2.1 "s" { command := some "npx" } AgentType.goose false ""
    (fun p => if p = agentConfigPath AgentType.goose then FileState.file none []
      else FileState.absent) rfl

/-! ## Claim C3 -/

/-- C3 counterexample: the claim says a malformed existing config file
makes the codec raise a ParseError, the install fail, and leaves the file
unmodified — but the JSON codec parses with the fault-tolerant
jsonc-parser, so for a JSON agent (Cursor) with a malformed config file
(strict parse fails, lenient best-effort parse is `{}`) the install
succeeds and the file is rewritten from the best-effort parse. -/
theorem C3_counterexample :
    (installServerForAgentM "neon" { type := some "http", url := some "https://x" }
      AgentType.cursor false ""
      (fun p => if p = agentConfigPath AgentType.cursor then FileState.file none []
        else FileState.absent)).1.success = true ∧
    (installServerForAgentM "neon" { type := some "http", url := some "https://x" }
      AgentType.cursor false ""
      (fun p => if p = agentConfigPath AgentType.cursor then FileState.file none []
        else FileState.absent)).2 (agentConfigPath AgentType.cursor) =
      validFile [("mcpServers", Value.obj [("neon", Value.obj
        [("type", Value.str "http"), ("url", Value.str "https://x")])])] ∧
    validFile [("mcpServers", Value.obj [("neon", Value.obj
      [("type", Value.str "http"), ("url", Value.str "https://x")])])] ≠
      FileState.file none [] := by
  refine ⟨rfl, rfl, ?_⟩
  intro h
  simp [validFile] at h

/-- C3 (amended): for the YAML and TOML codecs a malformed existing config
file raises a parse error that propagates out of the codec write, the
affected agent's install is reported as a failure, and the filesystem is
untouched; the JSON codec instead parses malformed content leniently
(jsonc-parser), reports success, and rewrites the file from the
best-effort parse. -/
theorem C3_parse_error_handling :
    (∀ (path : String) (config : Doc) (key : String) (fs : FS) (lenient : Doc),
      fs path = FileState.file none lenient →
      writeConfigM path config ConfigFormat.yaml key fs =
        Except.error "YAMLException: parse error" ∧
      writeConfigM path config ConfigFormat.toml key fs =
        Except.error "TomlError: parse error") ∧
    (∀ (serverName : String) (cfg : McpServerConfig) (a : AgentType)
        (isLocal : Bool) (cwd : String) (fs : FS) (lenient : Doc),
      agentFormat a ≠ ConfigFormat.json →
      fs (getConfigPathM a isLocal cwd) = FileState.file none lenient →
      ∃ e, installServerForAgentM serverName cfg a isLocal cwd fs =
        (⟨false, getConfigPathM a isLocal cwd, some e⟩, fs)) ∧
    (∀ (serverName : String) (cfg : McpServerConfig) (a : AgentType)
        (isLocal : Bool) (cwd : String) (fs : FS) (lenient : Doc),
      agentFormat a = ConfigFormat.json →
      fs (getConfigPathM a isLocal cwd) = FileState.file none lenient →
      (installServerForAgentM serverName cfg a isLocal cwd fs).1.success = true ∧
      ∃ d, (installServerForAgentM serverName cfg a isLocal cwd fs).2 =
        updateFS fs (getConfigPathM a isLocal cwd) (validFile d)) := by
  refine ⟨?_, ?_, ?_⟩
  · intro path config key fs lenient hfs
    constructor
    · show writeYamlConfigM path config fs = _
      rw [writeYamlConfigM, hfs]
    · show writeTomlConfigM path config fs = _
      rw [writeTomlConfigM, hfs]
  · intro serverName cfg a isLocal cwd fs lenient hfmt hfs
    rw [installServerForAgentM_eq]
    cases hf : agentFormat a with
    | json => exact absurd hf hfmt
    | yaml =>
      have hw : writeConfigM (getConfigPathM a isLocal cwd)
          (buildConfigWithKey (getConfigKeyM a isLocal) serverName
            (applyAgentTransform a serverName cfg))
          ConfigFormat.yaml (getConfigKeyM a isLocal) fs =
          Except.error "YAMLException: parse error" := by
        show writeYamlConfigM _ _ fs = _
        rw [writeYamlConfigM, hfs]
      rw [hw]
      exact ⟨"YAMLException: parse error", rfl⟩
    | toml =>
      have hw : writeConfigM (getConfigPathM a isLocal cwd)
          (buildConfigWithKey (getConfigKeyM a isLocal) serverName
            (applyAgentTransform a serverName cfg))
          ConfigFormat.toml (getConfigKeyM a isLocal) fs =
          Except.error "TomlError: parse error" := by
        show writeTomlConfigM _ _ fs = _
        rw [writeTomlConfigM, hfs]
      rw [hw]
      exact ⟨"TomlError: parse error", rfl⟩
  · intro serverName cfg a isLocal cwd fs lenient hfmt hfs
    rw [installServerForAgentM_eq, hfmt]
    have hw : writeConfigM (getConfigPathM a isLocal cwd)
        (buildConfigWithKey (getConfigKeyM a isLocal) serverName
          (applyAgentTransform a serverName cfg))
        ConfigFormat.json (getConfigKeyM a isLocal) fs =
        Except.ok (writeJsonConfigM (getConfigPathM a isLocal cwd)
          (buildConfigWithKey (getConfigKeyM a isLocal) serverName
            (applyAgentTransform a serverName cfg))
          (getConfigKeyM a isLocal) fs) := rfl
    rw [hw]
    refine ⟨rfl, ?_⟩
    refine ⟨writeJsonDoc (some lenient)
      (buildConfigWithKey (getConfigKeyM a isLocal) serverName
        (applyAgentTransform a serverName cfg))
      (jsSplit (getConfigKeyM a isLocal) '.'), ?_⟩
    show writeJsonConfigM _ _ _ fs = _
    rw [writeJsonConfigM_eq, hfs]

/-- Witness for C3 (amended): a malformed Goose YAML file makes the
install fail with the parse error and leaves the filesystem unchanged. -/
theorem C3_witness :
    ∃ e, installServerForAgentM "s" { command := some "npx" } AgentType.goose false ""
      (fun p => if p = agentConfigPath AgentType.goose then FileState.file none []
        else FileState.absent) =
      (⟨false, getConfigPathM AgentType.goose false "", some e⟩,
        fun p => if p = agentConfigPath AgentType.goose then FileState.file none []
          else FileState.absent) :=
  C3_parse_error_handling.2.1 "s" { command := some "npx" } AgentType.goose false ""
    (fun p => if p = agentConfigPath AgentType.goose then FileState.file none []
      else FileState.absent) [] (by decide) rfl

/-! ## Claim C9 -/

theorem isServerInstalledR_eq (env : JsProtoEnv) (serverName : String) (a : AgentType)
    (isLocal : Bool) (cwd : String) (fs : FS) :
    isServerInstalledR env serverName a isLocal cwd fs =
      match fs (getConfigPathM a isLocal cwd) with
      | FileState.absent => some (Except.ok false)
      | FileState.file _ _ =>
          match readConfigM (getConfigPathM a isLocal cwd) (agentFormat a) fs with
          | Except.error e => some (Except.error e)
          | Except.ok config =>
              match walkPathR env (Value.obj config) (jsSplit (agentConfigKey a) '.') with
              | WalkR.found cur => some (Except.ok (jsInR env cur serverName))
              | WalkR.failed => some (Except.ok false)
              | WalkR.protoEscape => none := rfl

/-- C9 counterexample: the claim says `isServerInstalled` returns `false`
when the value at the config key is not a map, but when Cursor's
`mcpServers` key holds the array `["x"]`, the JS `"0" in current` test on
the array succeeds and `isServerInstalled("0")` returns `true`
(`typeof [] === "object"`, and `"0"` and `"length"` are own properties of
the array, so the prototype chain is never consulted: the result is shown
under both extreme ambient prototype environments). -/
theorem C9_counterexample :
    isServerInstalledR ⟨fun _ => false, fun _ => false⟩ "0" AgentType.cursor false ""
      (fun p => if p = agentConfigPath AgentType.cursor then
        validFile [("mcpServers", Value.arr [Value.str "x"])] else FileState.absent) =
      some (Except.ok true) ∧
    isServerInstalledR ⟨fun _ => true, fun _ => true⟩ "0" AgentType.cursor false ""
      (fun p => if p = agentConfigPath AgentType.cursor then
        validFile [("mcpServers", Value.arr [Value.str "x"])] else FileState.absent) =
      some (Except.ok true) ∧
    objFind [("mcpServers", Value.arr [Value.str "x"])] "mcpServers" =
      some (Value.arr [Value.str "x"]) ∧
    (∀ m : Doc, Value.arr [Value.str "x"] ≠ Value.obj m) := by
  refine ⟨rfl, rfl, rfl, ?_⟩
  intro m h
  exact Value.noConfusion h

/-- C9 (amended): `isServerInstalled` returns `false` for a missing file;
it never throws for JSON agents (lenient parse), but a malformed YAML or
TOML file makes the underlying read throw and the error propagates.  The
dotted config key is walked under full JS `in` semantics: an own property
(which shadows the prototype) is descended into; a segment that is neither
an own nor a prototype-chain property of the current object, or that meets
a scalar, returns `false`; a prototype-chain hit leaves the document tree
for an engine intrinsic, beyond which the model abstains.  The final test
is `serverName in current`: on a plain object `true` exactly when the name
is a direct child key or a string-keyed `Object.prototype` property (such
as `"toString"`); on an array exactly when it is an in-range index string,
`"length"`, or an `Array.prototype`-chain property (such as `"push"`); on
a scalar `false`. -/
theorem C9_isServerInstalled_characterization :
    (∀ (env : JsProtoEnv) (serverName : String) (a : AgentType) (isLocal : Bool)
        (cwd : String) (fs : FS),
      fs (getConfigPathM a isLocal cwd) = FileState.absent →
      isServerInstalledR env serverName a isLocal cwd fs = some (Except.ok false)) ∧
    (∀ (env : JsProtoEnv) (serverName : String) (a : AgentType) (isLocal : Bool)
        (cwd : String) (fs : FS) (strict : Option Doc) (lenient : Doc),
      fs (getConfigPathM a isLocal cwd) = FileState.file strict lenient →
      (agentFormat a = ConfigFormat.json →
        isServerInstalledR env serverName a isLocal cwd fs =
          (match walkPathR env (Value.obj lenient) (jsSplit (agentConfigKey a) '.') with
            | WalkR.found cur => some (Except.ok (jsInR env cur serverName))
            | WalkR.failed => some (Except.ok false)
            | WalkR.protoEscape => none)) ∧
      (agentFormat a ≠ ConfigFormat.json → strict = none →
        ∃ e, isServerInstalledR env serverName a isLocal cwd fs = some (Except.error e)) ∧
      (∀ d, agentFormat a ≠ ConfigFormat.json → strict = some d →
        isServerInstalledR env serverName a isLocal cwd fs =
          (match walkPathR env (Value.obj d) (jsSplit (agentConfigKey a) '.') with
            | WalkR.found cur => some (Except.ok (jsInR env cur serverName))
            | WalkR.failed => some (Except.ok false)
            | WalkR.protoEscape => none))) ∧
    (∀ (env : JsProtoEnv) (cur : Value) (k : String) (rest : List String),
      jsIn cur k = true →
      walkPathR env cur (k :: rest) = walkPathR env (jsIndex cur k) rest) ∧
    (∀ (env : JsProtoEnv) (m : Doc) (k : String) (rest : List String),
      objFind m k = none → env.objectProtoHas k = false →
      walkPathR env (Value.obj m) (k :: rest) = WalkR.failed) ∧
    (∀ (env : JsProtoEnv) (m : Doc) (k : String) (rest : List String),
      objFind m k = none → env.objectProtoHas k = true →
      walkPathR env (Value.obj m) (k :: rest) = WalkR.protoEscape) ∧
    (∀ (env : JsProtoEnv) (k : String) (rest : List String),
      walkPathR env Value.null (k :: rest) = WalkR.failed ∧
      (∀ b, walkPathR env (Value.bool b) (k :: rest) = WalkR.failed) ∧
      (∀ x : Int, walkPathR env (Value.num x) (k :: rest) = WalkR.failed) ∧
      (∀ s, walkPathR env (Value.str s) (k :: rest) = WalkR.failed)) ∧
    (∀ (env : JsProtoEnv) (m : Doc) (name : String),
      jsInR env (Value.obj m) name =
        ((objFind m name).isSome || env.objectProtoHas name)) ∧
    (∀ (env : JsProtoEnv) (xs : List Value) (name : String),
      jsInR env (Value.arr xs) name =
        (name == "length" || (List.range xs.length).any (fun i => Nat.repr i == name) ||
          env.arrayProtoHas name)) ∧
    (∀ (env : JsProtoEnv) (name : String), jsInR env Value.null name = false ∧
      (∀ b, jsInR env (Value.bool b) name = false) ∧
      (∀ x : Int, jsInR env (Value.num x) name = false) ∧
      (∀ s, jsInR env (Value.str s) name = false)) := by
  refine ⟨?_, ?_, ?_, ?_, ?_,
    fun env k rest => ⟨rfl, fun b => rfl, fun x => rfl, fun s => rfl⟩,
    fun env m name => rfl, fun env xs name => rfl,
    fun env name => ⟨rfl, fun b => rfl, fun x => rfl, fun s => rfl⟩⟩
  · intro env serverName a isLocal cwd fs h
    rw [isServerInstalledR_eq, h]
  · intro env serverName a isLocal cwd fs strict lenient hfs
    refine ⟨?_, ?_, ?_⟩
    · intro hfmt
      rw [isServerInstalledR_eq, hfs, hfmt]
      have hread : readConfigM (getConfigPathM a isLocal cwd) ConfigFormat.json fs =
          Except.ok lenient := by
        show Except.ok (readJsonConfigM _ fs) = _
        rw [readJsonConfigM, hfs]
      rw [hread]
    · intro hfmt hstrict
      subst hstrict
      cases hf : agentFormat a with
      | json => exact absurd hf hfmt
      | yaml =>
        refine ⟨"YAMLException: parse error", ?_⟩
        rw [isServerInstalledR_eq, hfs, hf]
        have hread : readConfigM (getConfigPathM a isLocal cwd) ConfigFormat.yaml fs =
            Except.error "YAMLException: parse error" := by
          show readYamlConfigM _ fs = _
          rw [readYamlConfigM, hfs]
        rw [hread]
      | toml =>
        refine ⟨"TomlError: parse error", ?_⟩
        rw [isServerInstalledR_eq, hfs, hf]
        have hread : readConfigM (getConfigPathM a isLocal cwd) ConfigFormat.toml fs =
            Except.error "TomlError: parse error" := by
          show readTomlConfigM _ fs = _
          rw [readTomlConfigM, hfs]
        rw [hread]
    · intro d hfmt hstrict
      subst hstrict
      cases hf : agentFormat a with
      | json => exact absurd hf hfmt
      | yaml =>
        rw [isServerInstalledR_eq, hfs, hf]
        have hread : readConfigM (getConfigPathM a isLocal cwd) ConfigFormat.yaml fs =
            Except.ok d := by
          show readYamlConfigM _ fs = _
          rw [readYamlConfigM, hfs]
        rw [hread]
      | toml =>
        rw [isServerInstalledR_eq, hfs, hf]
        have hread : readConfigM (getConfigPathM a isLocal cwd) ConfigFormat.toml fs =
            Except.ok d := by
          show readTomlConfigM _ fs = _
          rw [readTomlConfigM, hfs]
        rw [hread]
  · intro env cur k rest h
    show (if jsIn cur k then walkPathR env (jsIndex cur k) rest
      else if jsInR env cur k then WalkR.protoEscape else WalkR.failed) = _
    rw [h]
    rfl
  · intro env m k rest h1 h2
    have hin : jsIn (Value.obj m) k = false := by simp [jsIn, h1]
    have hinR : jsInR env (Value.obj m) k = false := by simp [jsInR, h1, h2]
    show (if jsIn (Value.obj m) k then walkPathR env (jsIndex (Value.obj m) k) rest
      else if jsInR env (Value.obj m) k then WalkR.protoEscape else WalkR.failed) = _
    rw [hin, hinR]
    rfl
  · intro env m k rest h1 h2
    have hin : jsIn (Value.obj m) k = false := by simp [jsIn, h1]
    have hinR : jsInR env (Value.obj m) k = true := by simp [jsInR, h1, h2]
    show (if jsIn (Value.obj m) k then walkPathR env (jsIndex (Value.obj m) k) rest
      else if jsInR env (Value.obj m) k then WalkR.protoEscape else WalkR.failed) = _
    rw [hin, hinR]
    rfl

/-- Witness for C9 (amended): under an ambient prototype environment with
`"toString"` on `Object.prototype` and `"push"` on the `Array.prototype`
chain, a missing Cursor config file reports the server as not installed. -/
theorem C9_witness :
    isServerInstalledR ⟨fun k => k == "toString", fun k => k == "push"⟩ "neon"
      AgentType.cursor false "" (fun _ => FileState.absent) = some (Except.ok false) :=
  C9_isServerInstalled_characterization.1 ⟨fun k => k == "toString", fun k => k == "push"⟩
    "neon" AgentType.cursor false "" (fun _ => FileState.absent) rfl

/-! ## Claim C7 -/

/-- C7 counterexample: the claim (with the spec) says the Goose remote
record includes a `headers` field, but `transformGooseConfig` emits no
`headers` key at all: at a concrete remote config with headers the
transform output differs from the spec-worded record. -/
theorem C7_counterexample :
    transformGooseConfig "n"
      { type := some "http", url := some "https://x",
        headers := some [("Authorization", "Bearer t")] } ≠
    gooseSpecRemote "n"
      { type := some "http", url := some "https://x",
        headers := some [("Authorization", "Bearer t")] } := by
  intro h
  have h' : Value.obj
      [("name", Value.str "n"), ("type", Value.str "streamable_http"),
       ("url", Value.str "https://x"), ("enabled", Value.bool true),
       ("timeout", Value.num 300)] =
      Value.obj
      [("name", Value.str "n"), ("type", Value.str "streamable_http"),
       ("url", Value.str "https://x"),
       ("headers", Value.obj [("Authorization", Value.str "Bearer t")]),
       ("enabled", Value.bool true), ("timeout", Value.num 300)] := h
  simp at h'

/-- C7 (amended): the Goose transform maps every remote config (truthy
`url`) to `{name, type: "streamable_http" | "sse" (when transport is sse),
url, enabled: true, timeout: 300}` with no `headers` field, and every local
config to `{name, cmd: command, args, enabled: true, envs:
env-or-empty-map, type: "stdio", timeout: 300}`. -/
theorem C7_transformGoose (serverName : String) (cfg : McpServerConfig) :
    (∀ u, cfg.url = some u → u ≠ "" →
      transformGooseConfig serverName cfg =
        Value.obj
          [("name", Value.str serverName),
           ("type", Value.str (if cfg.type = some "sse" then "sse" else "streamable_http")),
           ("url", Value.str u),
           ("enabled", Value.bool true),
           ("timeout", Value.num 300)]) ∧
    (∀ c, cfg.url = none → cfg.command = some c →
      transformGooseConfig serverName cfg =
        Value.obj
          [("name", Value.str serverName),
           ("cmd", Value.str c),
           ("args", strListValue (cfg.args.getD [])),
           ("enabled", Value.bool true),
           ("envs", strMapValue (cfg.env.getD [])),
           ("type", Value.str "stdio"),
           ("timeout", Value.num 300)]) := by
  constructor
  · intro u hu hne
    have ht : jsTruthyStr cfg.url = true := by
      rw [hu]; simpa [jsTruthyStr] using hne
    rw [transformGooseConfig, ht]
    rw [hu]
    simp
  · intro c hu hc
    have ht : jsTruthyStr cfg.url = false := by rw [hu]; rfl
    rw [transformGooseConfig, ht]
    rw [hc]
    simp

/-- Witness for C7: a concrete SSE remote config and a concrete local
config. -/
theorem C7_witness :
    transformGooseConfig "n" { type := some "sse", url := some "https://x" } =
      Value.obj
        [("name", Value.str "n"), ("type", Value.str "sse"),
         ("url", Value.str "https://x"), ("enabled", Value.bool true),
         ("timeout", Value.num 300)] ∧
    transformGooseConfig "m"
      { command := some "npx", args := some ["-y", "pkg"] } =
      Value.obj
        [("name", Value.str "m"), ("cmd", Value.str "npx"),
         ("args", Value.arr [Value.str "-y", Value.str "pkg"]),
         ("enabled", Value.bool true), ("envs", Value.obj []),
         ("type", Value.str "stdio"), ("timeout", Value.num 300)] :=
  ⟨(C7_transformGoose "n" { type := some "sse", url := some "https://x" }).1
      "https://x" rfl (by decide),
   (C7_transformGoose "m" { command := some "npx", args := some ["-y", "pkg"] }).2
      "npx" rfl rfl⟩

/-! ## Claim C8 -/

theorem strStartsWith_jsTrim (s p : String) (hp : strStartsWith s p = true)
    (c0 : Char) (rest0 : List Char) (hhead : strChars p = c0 :: rest0)
    (hc0 : c0.isWhitespace = false)
    (cl : Char) (hlast : (strChars p).getLast? = some cl)
    (hcl : cl.isWhitespace = false) :
    strStartsWith (jsTrim s) p = true := by
  have hpre : strChars p <+: strChars s := List.isPrefixOf_iff_prefix.mp hp
  obtain ⟨r, hr⟩ := hpre
  have h1 : (strChars s).dropWhile Char.isWhitespace = strChars s := by
    rw [← hr, hhead]
    rw [show (c0 :: rest0) ++ r = c0 :: (rest0 ++ r) from rfl]
    rw [List.dropWhile_cons]
    simp [hc0]
  have h2 : (strChars p).reverse.dropWhile Char.isWhitespace = (strChars p).reverse := by
    have hhd : (strChars p).reverse.head? = some cl := by
      rw [List.head?_reverse]; exact hlast
    cases hrev : (strChars p).reverse with
    | nil => rw [hrev] at hhd; simp at hhd
    | cons c t =>
      rw [hrev] at hhd
      have hc : c = cl := by simpa using hhd
      subst hc
      rw [List.dropWhile_cons]
      simp [hcl]
  show (strChars p).isPrefixOf (strChars (jsTrim s)) = true
  have hchars : strChars (jsTrim s) =
      (((strChars s).dropWhile Char.isWhitespace).reverse.dropWhile
        Char.isWhitespace).reverse := rfl
  rw [hchars, h1, ← hr, List.reverse_append, List.dropWhile_append]
  rw [List.isPrefixOf_iff_prefix]
  by_cases hemp : (r.reverse.dropWhile Char.isWhitespace).isEmpty = true
  · rw [if_pos hemp, h2, List.reverse_reverse]
  · rw [if_neg hemp, List.reverse_append, List.reverse_reverse]
    exact List.prefix_append _ _

theorem extractBrand_eq (h : String) :
    extractBrandFromHostname h =
      match (jsSplit h '.').filter meaningfulPart with
      | m :: _ => m
      | [] =>
          if 2 ≤ (jsSplit h '.').length then
            (jsSplit h '.').getD ((jsSplit h '.').length - 2) "mcp-server"
          else "mcp-server" := rfl

theorem extractBrand_ok (h : String)
    (hlab : ∀ p ∈ jsSplit h '.', p ≠ "" ∧ strContainsChar p '.' = false ∧
      strContainsChar p '/' = false) :
    extractBrandFromHostname h ≠ "" ∧
    strContainsChar (extractBrandFromHostname h) '.' = false ∧
    strContainsChar (extractBrandFromHostname h) '/' = false := by
  rw [extractBrand_eq]
  cases hm : (jsSplit h '.').filter meaningfulPart with
  | cons m rest =>
    have hmem : m ∈ jsSplit h '.' :=
      List.mem_of_mem_filter (by rw [hm]; exact List.mem_cons_self m rest)
    exact hlab m hmem
  | nil =>
    by_cases hlen : 2 ≤ (jsSplit h '.').length
    · rw [if_pos hlen]
      have hlt : (jsSplit h '.').length - 2 < (jsSplit h '.').length := by omega
      cases hx : (jsSplit h '.').get? ((jsSplit h '.').length - 2) with
      | none =>
        have := List.get?_eq_none.mp hx
        omega
      | some x =>
        have hmem : x ∈ jsSplit h '.' := List.get?_mem hx
        have hgd : (jsSplit h '.').getD ((jsSplit h '.').length - 2) "mcp-server" = x := by
          show ((jsSplit h '.').get? ((jsSplit h '.').length - 2)).getD "mcp-server" = x
          rw [hx]; rfl
        rw [hgd]
        exact hlab x hmem
    · rw [if_neg hlen]
      refine ⟨by decide, by decide, by decide⟩

/-- C8: for every input beginning with `http://` or `https://` whose URL
parse yields a hostname with nonempty, dot-free, slash-free labels (every
DNS-valid hostname), `parseSource` classifies it as remote, and the
inferred name is `extractBrandFromHostname` of the hostname — dropping
labels that are common TLDs or exactly `mcp`/`api`/`www`, taking the first
remaining label, falling back to the second-to-last label and then to the
fixed default — and is nonempty, contains no `.` and no `/`. -/
theorem C8_remote_classification (urlHostOf : String → Option String)
    (input : String) (h : String)
    (hstart : strStartsWith input "http://" = true ∨
      strStartsWith input "https://" = true)
    (hurl : urlHostOf (jsTrim input) = some h)
    (hlab : ∀ p ∈ jsSplit h '.', p ≠ "" ∧ strContainsChar p '.' = false ∧
      strContainsChar p '/' = false) :
    (parseSourceM urlHostOf input).stype = SourceType.remote ∧
    (parseSourceM urlHostOf input).inferredName = extractBrandFromHostname h ∧
    (parseSourceM urlHostOf input).inferredName ≠ "" ∧
    strContainsChar (parseSourceM urlHostOf input).inferredName '.' = false ∧
    strContainsChar (parseSourceM urlHostOf input).inferredName '/' = false := by
  have htrim : isUrlM (jsTrim input) = true := by
    rcases hstart with hs | hs
    · have := strStartsWith_jsTrim input "http://" hs 'h'
        (strChars "http://").tail rfl (by decide) '/' rfl (by decide)
      simp [isUrlM, this]
    · have := strStartsWith_jsTrim input "https://" hs 'h'
        (strChars "https://").tail rfl (by decide) '/' rfl (by decide)
      simp [isUrlM, this]
  have hps : parseSourceM urlHostOf input =
      ⟨SourceType.remote, jsTrim input,
        inferNameM urlHostOf (jsTrim input) SourceType.remote⟩ := by
    rw [parseSourceM, htrim]
    rfl
  have hname : inferNameM urlHostOf (jsTrim input) SourceType.remote =
      extractBrandFromHostname h := by
    rw [inferNameM, hurl]
  rw [hps]
  obtain ⟨hne, hdot, hslash⟩ := extractBrand_ok h hlab
  exact ⟨rfl, hname, by rw [hname]; exact hne, by rw [hname]; exact hdot,
    by rw [hname]; exact hslash⟩

/-- Witness for C8 at the concrete input `https://mcp.neon.tech/mcp`, with
the ambient URL parser returning hostname `mcp.neon.tech`. -/
theorem C8_witness :
    (parseSourceM (fun s => if s = "https://mcp.neon.tech/mcp" then
      some "mcp.neon.tech" else none) "https://mcp.neon.tech/mcp").stype =
      SourceType.remote ∧
    (parseSourceM (fun s => if s = "https://mcp.neon.tech/mcp" then
      some "mcp.neon.tech" else none) "https://mcp.neon.tech/mcp").inferredName =
      extractBrandFromHostname "mcp.neon.tech" ∧
    (parseSourceM (fun s => if s = "https://mcp.neon.tech/mcp" then
      some "mcp.neon.tech" else none) "https://mcp.neon.tech/mcp").inferredName ≠ "" ∧
    strContainsChar (parseSourceM (fun s => if s = "https://mcp.neon.tech/mcp" then
      some "mcp.neon.tech" else none) "https://mcp.neon.tech/mcp").inferredName '.' =
      false ∧
    strContainsChar (parseSourceM (fun s => if s = "https://mcp.neon.tech/mcp" then
      some "mcp.neon.tech" else none) "https://mcp.neon.tech/mcp").inferredName '/' =
      false :=
  C8_remote_classification
    (fun s => if s = "https://mcp.neon.tech/mcp" then some "mcp.neon.tech" else none)
    "https://mcp.neon.tech/mcp" "mcp.neon.tech"
    (Or.inr (by decide)) (by decide) (by decide)

/-! ## Claim C5 -/

/-- C5 counterexample: the claim says full re-serialization is used only
when structural patching throws or when no file exists, but for an
existing file with empty content the source skips the patch attempt
(`if (originalContent)`) and fully re-serializes even though the file
exists and nothing threw. -/
theorem C5_counterexample :
    ¬ (∀ (fileExists : Bool) (original : Text) (mr : Option JsonEdit),
        writeJsonStrategy fileExists original mr = JsonWriteOutcome.serialized →
        mr = none ∨ fileExists = false) := by
  intro hclaim
  rcases hclaim true [] (some ⟨0, 0, []⟩) rfl with h | h
  · exact Option.noConfusion h
  · exact Bool.noConfusion h

/-- C5 (amended): the JSON write computes the edit as a structural patch
against the original text and applies it textually, so that everything
outside the config-key property's span — comments included — survives
verbatim; full re-serialization happens exactly when no file exists, the
existing file is empty, or structural patching throws.  The indentation
passed to the patch is detected from the first property with positive line
and column, defaulting to two spaces. -/
theorem C5_json_text_patch :
    (∀ (fileExists : Bool) (original : Text) (mr : Option JsonEdit),
      writeJsonStrategy fileExists original mr = JsonWriteOutcome.serialized ↔
        (fileExists = false ∨ original = [] ∨ mr = none)) ∧
    (∀ (pre span post : Text) (e : JsonEdit), span ≠ [] →
      pre.length ≤ e.offset → e.offset + e.length ≤ pre.length + span.length →
      writeJsonStrategy true (pre ++ span ++ post) (some e) =
        JsonWriteOutcome.patched
          (pre ++ (span.take (e.offset - pre.length) ++ e.content ++
            span.drop (e.offset + e.length - pre.length)) ++ post)) ∧
    (∀ (pre span post : Text) (e : JsonEdit) (c : Text),
      pre.length ≤ e.offset → e.offset + e.length ≤ pre.length + span.length →
      (List.IsInfix c pre ∨ List.IsInfix c post) →
      List.IsInfix c (applyEditText (pre ++ span ++ post) e)) ∧
    (∀ (props : List PropTokenPos) (q : PropTokenPos),
      props.find? (fun p => decide (0 < p.startLine) &&
        decide (0 < p.startCharacter)) = some q →
      detectIndentM props = ⟨q.startCharacter, !q.leadingWs.contains '\t'⟩) ∧
    (∀ (props : List PropTokenPos),
      props.find? (fun p => decide (0 < p.startLine) &&
        decide (0 < p.startCharacter)) = none →
      detectIndentM props = ⟨2, true⟩) := by
  have hedit : ∀ (pre span post : Text) (e : JsonEdit),
      pre.length ≤ e.offset → e.offset + e.length ≤ pre.length + span.length →
      applyEditText (pre ++ span ++ post) e =
        pre ++ (span.take (e.offset - pre.length) ++ e.content ++
          span.drop (e.offset + e.length - pre.length)) ++ post := by
    intro pre span post e h1 h2
    unfold applyEditText
    rw [List.take_append_eq_append_take, List.take_append_eq_append_take,
      List.take_of_length_le h1]
    rw [show e.offset - (pre ++ span).length = 0 from by
      simp only [List.length_append]; omega]
    rw [List.take_zero, List.append_nil]
    rw [List.drop_append_eq_append_drop, List.drop_append_eq_append_drop,
      List.drop_eq_nil_of_le (show pre.length ≤ e.offset + e.length from by omega),
      List.nil_append]
    rw [show e.offset + e.length - (pre ++ span).length = 0 from by
      simp only [List.length_append]; omega]
    rw [List.drop_zero]
    simp [List.append_assoc]
  refine ⟨?_, ?_, ?_, ?_, ?_⟩
  · intro ex orig mr
    cases ex <;> cases orig <;> cases mr <;>
      simp [writeJsonStrategy, applyEditText]
  · intro pre span post e hspan h1 h2
    have hne : (pre ++ span ++ post).isEmpty = false := by
      have : (pre ++ span ++ post) ≠ [] := by
        intro hh
        rcases List.append_eq_nil.mp hh with ⟨hh1, _⟩
        rcases List.append_eq_nil.mp hh1 with ⟨_, hh3⟩
        exact hspan hh3
      simpa [List.isEmpty_iff] using this
    rw [writeJsonStrategy]
    rw [hne]
    rw [hedit pre span post e h1 h2]
    rfl
  · intro pre span post e c h1 h2 hc
    rw [hedit pre span post e h1 h2]
    rcases hc with hc | hc
    · refine hc.trans ?_
      rw [List.append_assoc]
      exact (List.prefix_append _ _).isInfix
    · exact hc.trans (List.suffix_append _ _).isInfix
  · intro props q hq
    rw [detectIndentM, hq]
  · intro props hq
    rw [detectIndentM, hq]

/-- Witness for C5 (amended): a concrete three-region text and an edit
confined to the middle region. -/
theorem C5_witness :
    writeJsonStrategy true
      (['{', 'a'] ++ ['1'] ++ ['}']) (some ⟨2, 1, ['2']⟩) =
      JsonWriteOutcome.patched
        (['{', 'a'] ++ (List.take 0 ['1'] ++ ['2'] ++ List.drop 1 ['1']) ++ ['}']) :=
  C5_json_text_patch.2.1 ['{', 'a'] ['1'] ['}'] ⟨2, 1, ['2']⟩
    (by decide) (by decide) (by decide)
